import Mathlib

/-!
Shallow embedding of the Monkey interpreter's evaluator (yuya373/monkey).

The repository carries two versions of the tree-walking evaluator:
  * `src/evaluator/evaluator.go`  — embedded below in namespace `EvalA`;
  * `src/unnamed/part_001`        — embedded below in namespace `EvalB`
    (adds strings, arrays, index expressions and builtins).
Functions whose Go source text is identical in both files are defined once,
in the shared `Monkey` namespace.

Modelling conventions:
  * Go `int64` arithmetic wraps; we use `Int` with an explicit `wrap64`.
    (`/` is Go's truncating division, `Int.tdiv`; division by zero panics in
    Go and is left unspecified here — no theorem below depends on it.)
  * Go mutates `object.Environment` frames through shared pointers.  We model
    the heap of frames as an arena (`St.frames`); an environment is an index
    into the arena, and the evaluator threads the arena explicitly.
  * Go compares `object.Object` interface values with `==`, which is pointer
    identity.  Every heap-allocated object in the source (`&object.Integer{…}`
    etc.) carries a fresh allocation id here, drawn from the counter
    `St.next`; `TRUE`/`FALSE`/`NULL` are singletons and carry none.  `goEq`
    is then exactly Go interface equality.
  * A Go function that can return the nil interface is modelled with the
    explicit value `Value.goNil`.
  * Evaluation need not terminate (Monkey is Turing-complete), so every
    evaluator function takes fuel and returns `none` when the fuel runs out;
    fuel is decremented on every recursive call.
-/

namespace Monkey

/-- Two's-complement wrap-around of Go `int64` arithmetic. -/
def wrap64 (n : Int) : Int := (n + 2 ^ 63) % 2 ^ 64 - 2 ^ 63

/-! AST, from `src/ast/ast.go`.  Token fields (source positions / literals)
carry no semantic content for the evaluator and are omitted; `Identifier`
nodes are represented by their `Value` string, parameter lists by the list of
parameter names. -/

mutual

inductive Expr : Type where
  | ident (name : String)
  | intLit (value : Int)
  | strLit (value : String)
  | boolLit (value : Bool)
  | prefixExpression (op : String) (right : Expr)
  | infixExpression (left : Expr) (op : String) (right : Expr)
  | ifExpression (cond : Expr) (consequence : Block) (alternative : Option Block)
  | fnLit (params : List String) (body : Block)
  | callExpression (fn : Expr) (args : List Expr)
  | arrLit (elements : List Expr)
  | indexExpression (left : Expr) (index : Expr)

inductive Stmt : Type where
  | letS (name : String) (value : Expr)
  | returnS (value : Expr)
  | exprS (e : Expr)

inductive Block : Type where
  | mk (stmts : List Stmt)

end

/-- Runtime values (`object` package).  `id` is the allocation identity of the
corresponding Go heap object (see the header comment). -/
inductive Value : Type where
  | integer (id : Nat) (value : Int)
  | boolean (value : Bool)
  | null
  | returnValue (id : Nat) (value : Value)
  | error (id : Nat) (message : String)
  | function (id : Nat) (params : List String) (body : Block) (env : Nat)
  | string (id : Nat) (value : String)
  | array (id : Nat) (elements : List Value)
  | builtin (name : String)
  | goNil

/-- Go `Object.Type()` tag strings.  `Value.goNil` has no `Type()` in Go
(calling it panics); the sentinel below is never produced by any evaluator
path that the source guards with a nil check. -/
def Value.typeTag : Value → String
  | .integer .. => "INTEGER"
  | .boolean .. => "BOOLEAN"
  | .null => "NULL"
  | .returnValue .. => "RETURN_VALUE"
  | .error .. => "ERROR"
  | .function .. => "FUNCTION"
  | .string .. => "STRING"
  | .array .. => "ARRAY"
  | .builtin .. => "BUILTIN"
  | .goNil => "<nil>"

/-- Go interface equality (`left == right` on `object.Object`): pointer
identity, i.e. equality of allocation ids; the singletons `TRUE`, `FALSE`,
`NULL` (and per-name builtins) compare by their content. -/
def goEq : Value → Value → Bool
  | .integer i _, .integer j _ => i == j
  | .boolean a, .boolean b => a == b
  | .null, .null => true
  | .returnValue i _, .returnValue j _ => i == j
  | .error i _, .error j _ => i == j
  | .function i _ _ _, .function j _ _ _ => i == j
  | .string i _, .string j _ => i == j
  | .array i _, .array j _ => i == j
  | .builtin a, .builtin b => a == b
  | .goNil, .goNil => true
  | _, _ => false

/-- Modelled from the spec: one frame of `object.Environment` (the `object`
package is not under `src/`); a map from names to values plus an optional
outer frame (§4.4). -/
structure Frame : Type where
  table : List (String × Value)
  outer : Option Nat

/-- Evaluator state: the arena of environment frames plus the allocation
counter for value identities. -/
structure St : Type where
  frames : List Frame
  next : Nat

/-- Allocate a fresh object identity. -/
def alloc (st : St) : Nat × St := (st.next, { st with next := st.next + 1 })

/-- Map update for a frame's table (Go `map[string]Object` assignment). -/
def setAssoc : List (String × Value) → String → Value → List (String × Value)
  | [], k, v => [(k, v)]
  | (k', v') :: rest, k, v =>
    if k' = k then (k, v) :: rest else (k', v') :: setAssoc rest k v

/-- Map lookup for a frame's table. -/
def getAssoc : List (String × Value) → String → Option Value
  | [], _ => none
  | (k', v') :: rest, k => if k' = k then some v' else getAssoc rest k

/-- Map deletion for a frame's table (Go `delete`). -/
def delAssoc : List (String × Value) → String → List (String × Value)
  | [], _ => []
  | (k', v') :: rest, k =>
    if k' = k then delAssoc rest k else (k', v') :: delAssoc rest k

/-- Modelled from the spec: `object.NewEnvironment` — a fresh frame with no
outer environment (§4.4). -/
def newEnvironment (st : St) : Nat × St :=
  (st.frames.length, { st with frames := st.frames ++ [⟨[], none⟩] })

/-- Modelled from the spec: `object.NewEnclosedEnvironment(outer)` — an empty
local frame pointing at `outer` (§4.4). -/
def newEnclosedEnvironment (outer : Nat) (st : St) : Nat × St :=
  (st.frames.length, { st with frames := st.frames ++ [⟨[], some outer⟩] })

/-- Modelled from the spec: `object.CloneEnvironment(env)` (called by both
evaluators at every function literal; the `object` package is not under
`src/`).  The spec's lexical-scope invariant (§8) requires the captured frame
to be insulated from later rebindings in the defining frame, so the clone
copies the local frame and shares the outer chain. -/
def cloneEnvironment (env : Nat) (st : St) : Nat × St :=
  match st.frames[env]? with
  | some f => (st.frames.length, { st with frames := st.frames ++ [⟨f.table, f.outer⟩] })
  | none => (st.frames.length, { st with frames := st.frames ++ [⟨[], none⟩] })

/-- Modelled from the spec: `Environment.Set` writes to the local frame
(§4.4). -/
def envSet (env : Nat) (name : String) (v : Value) (st : St) : St :=
  match st.frames[env]? with
  | some f => { st with frames := st.frames.set env ⟨setAssoc f.table name v, f.outer⟩ }
  | none => st

/-- Modelled from the spec: `Environment.Delete` removes from the local frame
only (§4.4). -/
def envDelete (env : Nat) (name : String) (st : St) : St :=
  match st.frames[env]? with
  | some f => { st with frames := st.frames.set env ⟨delAssoc f.table name, f.outer⟩ }
  | none => st

/-- Chain walk for `Environment.Get`; the fuel bounds the chain length (outer
references always point to earlier frames, so `frames.length` suffices). -/
def envGetAux : Nat → List Frame → Nat → String → Option Value
  | 0, _, _, _ => none
  | fuel + 1, frames, env, name =>
    match frames[env]? with
    | none => none
    | some f =>
      match getAssoc f.table name with
      | some v => some v
      | none =>
        match f.outer with
        | some o => envGetAux fuel frames o name
        | none => none

/-- Modelled from the spec: `Environment.Get` searches the local frame, then
the outer chain (§4.4). -/
def envGet (st : St) (env : Nat) (name : String) : Option Value :=
  envGetAux st.frames.length st.frames env name

/-! Helper functions of the evaluator whose Go source text is identical in
`src/evaluator/evaluator.go` and `src/unnamed/part_001`; defined once and
used by both embeddings. -/

/-- `newError`: allocate an `object.Error` with the given message. -/
def newError (msg : String) (st : St) : Value × St :=
  let (i, st) := alloc st
  (.error i msg, st)

/-- `isError`: non-nil and of type `ERROR_OBJ`. -/
def isError : Value → Bool
  | .goNil => false
  | v => v.typeTag == "ERROR"

/-- `isTruthy`: everything but the `NULL` and `FALSE` singletons is truthy
(the source compares with Go `==`, i.e. identity against the singletons). -/
def isTruthy (obj : Value) : Bool :=
  if goEq obj .null || goEq obj (.boolean false) then false else true

/-- `evalBoolean`: select the `TRUE` or `FALSE` singleton. -/
def evalBoolean (b : Bool) : Value := .boolean b

/-- `evalBangOperatorExpression`: identity switch against the singletons. -/
def evalBangOperatorExpression (right : Value) : Value :=
  if goEq right (.boolean true) then .boolean false
  else if goEq right (.boolean false) then .boolean true
  else if goEq right .null then .boolean true
  else .boolean false

/-- `evalMinusPrefixOperatorExpression`: negate an INTEGER, error otherwise. -/
def evalMinusPrefixOperatorExpression (right : Value) (st : St) : Value × St :=
  match right with
  | .integer _ v =>
    let (i, st) := alloc st
    (.integer i (wrap64 (-v)), st)
  | r => newError ("unknown operator: -" ++ r.typeTag) st

/-- `evalIntegerInfixExpression`; `lVal`, `rVal` are the `Value` fields of the
two INTEGER operands (the source type-asserts `*object.Integer`). -/
def evalIntegerInfixExpression (op : String) (lVal rVal : Int) (st : St) : Value × St :=
  if op = "+" then let (i, st) := alloc st; (.integer i (wrap64 (lVal + rVal)), st)
  else if op = "-" then let (i, st) := alloc st; (.integer i (wrap64 (lVal - rVal)), st)
  else if op = "*" then let (i, st) := alloc st; (.integer i (wrap64 (lVal * rVal)), st)
  else if op = "/" then let (i, st) := alloc st; (.integer i (wrap64 (Int.tdiv lVal rVal)), st)
  else if op = "<" then (evalBoolean (decide (lVal < rVal)), st)
  else if op = ">" then (evalBoolean (decide (lVal > rVal)), st)
  else if op = "==" then (evalBoolean (lVal == rVal), st)
  else if op = "!=" then (evalBoolean (lVal != rVal), st)
  else newError ("unknown operator: INTEGER " ++ op ++ " INTEGER") st

/-- `evalPrefixExpression`: dispatch on the operator. -/
def evalPrefixExpression (op : String) (right : Value) (st : St) : Value × St :=
  if op = "!" then (evalBangOperatorExpression right, st)
  else if op = "-" then evalMinusPrefixOperatorExpression right st
  else newError ("unknown operator: " ++ op ++ right.typeTag) st

/-- `unwrapReturnValue`: strip one `RETURN_VALUE` wrapper if present. -/
def unwrapReturnValue : Value → Value
  | .returnValue _ v => v
  | v => v

/-- The loop body of `extendFunctionEnv`: for each parameter (in order)
delete its name from the captured frame `fenv`, then, if an argument at that
position exists, bind it in the new frame `env`. -/
def bindParams (fenv env : Nat) : List String → List Value → St → St
  | [], _, st => st
  | p :: ps, args, st =>
    let st := envDelete fenv p st
    let st :=
      match args with
      | [] => st
      | a :: _ => envSet env p a st
    bindParams fenv env ps args.tail st

/-- `extendFunctionEnv`: enclose a fresh frame over the function's captured
environment and bind the parameters positionally (see `bindParams`). -/
def extendFunctionEnv (params : List String) (fenv : Nat) (args : List Value) (st : St) : Nat × St :=
  let (env, st) := newEnclosedEnvironment fenv st
  (env, bindParams fenv env params args st)

namespace EvalA

/-! The evaluator of `src/evaluator/evaluator.go`.  The Go file's single
`Eval` is split by syntactic sort (expressions, statements, blocks); the
loops of `evalProgram`, `evalBlockStatement` and `evalExpressions` are the
`…Aux` functions, carrying the loop's accumulated state. -/

/-- `evalIdentifier` (evaluator.go): environment lookup only; a miss is
`identifier not found`. -/
def evalIdentifier (name : String) (env : Nat) (st : St) : Value × St :=
  match envGet st env name with
  | some v => (v, st)
  | none => newError ("identifier not found: " ++ name) st

/-- `evalInfixExpression` (evaluator.go): integers dispatch to
`evalIntegerInfixExpression`; then `==`/`!=` compare by Go identity; then
mismatched type tags are `type mismatch`, anything else `unknown operator`. -/
def evalInfixExpression (op : String) (left right : Value) (st : St) : Value × St :=
  match left, right with
  | .integer _ l, .integer _ r => evalIntegerInfixExpression op l r st
  | left, right =>
    if op = "==" then (evalBoolean (goEq left right), st)
    else if op = "!=" then (evalBoolean (!goEq left right), st)
    else if left.typeTag ≠ right.typeTag then
      newError ("type mismatch: " ++ left.typeTag ++ " " ++ op ++ " " ++ right.typeTag) st
    else
      newError ("unknown operator: " ++ left.typeTag ++ " " ++ op ++ " " ++ right.typeTag) st

mutual

/-- Expression cases of `Eval` (evaluator.go).  `ArrayLiteral` and
`IndexExpression` are not handled by this version of the file: the Go switch
falls through and `Eval` returns nil. -/
def evalExpr : Nat → Expr → Nat → St → Option (Value × St)
  | 0, _, _, _ => none
  | fuel + 1, e, env, st =>
    match e with
    | .intLit n =>
      let (i, st) := alloc st
      some (.integer i n, st)
    | .strLit s =>
      let (i, st) := alloc st
      some (.string i s, st)
    | .boolLit b => some (evalBoolean b, st)
    | .prefixExpression op r =>
      match evalExpr fuel r env st with
      | none => none
      | some (rv, st) =>
        if isError rv then some (rv, st)
        else some (evalPrefixExpression op rv st)
    | .infixExpression l op r =>
      match evalExpr fuel l env st with
      | none => none
      | some (lv, st) =>
        if isError lv then some (lv, st)
        else
          match evalExpr fuel r env st with
          | none => none
          | some (rv, st) =>
            if isError rv then some (rv, st)
            else some (evalInfixExpression op lv rv st)
    | .ifExpression c cons alt => evalIfExpression fuel c cons alt env st
    | .ident name => some (evalIdentifier name env st)
    | .fnLit params body =>
      let (cenv, st) := cloneEnvironment env st
      let (i, st) := alloc st
      some (.function i params body cenv, st)
    | .callExpression f args =>
      match evalExpr fuel f env st with
      | none => none
      | some (fv, st) =>
        if isError fv then some (fv, st)
        else
          match evalExpressionsAux fuel args env st [] with
          | none => none
          | some (argVals, st) =>
            if argVals.length == 1 && isError (argVals.headD .goNil) then
              some (argVals.headD .goNil, st)
            else applyFunction fuel fv argVals st
    | .arrLit _ => some (.goNil, st)
    | .indexExpression _ _ => some (.goNil, st)
  termination_by structural fuel _ _ _ => fuel

/-- Statement cases of `Eval` (evaluator.go).  A `let` statement falls
through the Go switch after `env.Set`, so it evaluates to nil. -/
def evalStmt : Nat → Stmt → Nat → St → Option (Value × St)
  | 0, _, _, _ => none
  | fuel + 1, s, env, st =>
    match s with
    | .exprS e => evalExpr fuel e env st
    | .returnS e =>
      match evalExpr fuel e env st with
      | none => none
      | some (v, st) =>
        if isError v then some (v, st)
        else
          let (i, st) := alloc st
          some (.returnValue i v, st)
    | .letS name e =>
      match evalExpr fuel e env st with
      | none => none
      | some (v, st) =>
        if isError v then some (v, st)
        else some (.goNil, envSet env name v st)
  termination_by structural fuel _ _ _ => fuel

/-- `evalBlockStatement` (evaluator.go). -/
def evalBlockStatement : Nat → Block → Nat → St → Option (Value × St)
  | 0, _, _, _ => none
  | fuel + 1, .mk stmts, env, st => evalBlockLoop fuel stmts env st .goNil
  termination_by structural fuel _ _ _ => fuel

/-- The loop of `evalBlockStatement`: `result` is the value of the last
statement evaluated so far (initially nil); a non-nil `RETURN_VALUE` or
`ERROR` is returned as is. -/
def evalBlockLoop : Nat → List Stmt → Nat → St → Value → Option (Value × St)
  | 0, _, _, _, _ => none
  | _ + 1, [], _, st, result => some (result, st)
  | fuel + 1, stmt :: rest, env, st, _ =>
    match evalStmt fuel stmt env st with
    | none => none
    | some (result, st) =>
      match result with
      | .goNil => evalBlockLoop fuel rest env st .goNil
      | r =>
        if r.typeTag == "RETURN_VALUE" || r.typeTag == "ERROR" then some (r, st)
        else evalBlockLoop fuel rest env st r
  termination_by structural fuel _ _ _ _ => fuel

/-- `evalIfExpression` (evaluator.go). -/
def evalIfExpression : Nat → Expr → Block → Option Block → Nat → St → Option (Value × St)
  | 0, _, _, _, _, _ => none
  | fuel + 1, c, cons, alt, env, st =>
    match evalExpr fuel c env st with
    | none => none
    | some (cond, st) =>
      if isError cond then some (cond, st)
      else if isTruthy cond then evalBlockStatement fuel cons env st
      else
        match alt with
        | some b => evalBlockStatement fuel b env st
        | none => some (.null, st)
  termination_by structural fuel _ _ _ _ _ => fuel

/-- The loop of `evalExpressions` (evaluator.go): evaluate left to right,
short-circuiting to a single-element list on the first error. -/
def evalExpressionsAux : Nat → List Expr → Nat → St → List Value → Option (List Value × St)
  | 0, _, _, _, _ => none
  | _ + 1, [], _, st, acc => some (acc, st)
  | fuel + 1, e :: rest, env, st, acc =>
    match evalExpr fuel e env st with
    | none => none
    | some (v, st) =>
      if isError v then some ([v], st)
      else evalExpressionsAux fuel rest env st (acc ++ [v])
  termination_by structural fuel _ _ _ _ => fuel

/-- `applyFunction` (evaluator.go): only `FUNCTION` values are applicable. -/
def applyFunction : Nat → Value → List Value → St → Option (Value × St)
  | 0, _, _, _ => none
  | fuel + 1, fn, args, st =>
    match fn with
    | .function _ params body fenv =>
      let (extendedEnv, st) := extendFunctionEnv params fenv args st
      match evalBlockStatement fuel body extendedEnv st with
      | none => none
      | some (evaluated, st) => some (unwrapReturnValue evaluated, st)
    | _ => some (newError ("not a function: " ++ fn.typeTag) st)
  termination_by structural fuel _ _ _ => fuel

/-- The loop of `evalProgram` (evaluator.go): a `RETURN_VALUE` is unwrapped
and returned, an `ERROR` is returned; otherwise the last statement's value
(initially nil) survives. -/
def evalProgramAux : Nat → List Stmt → Nat → St → Value → Option (Value × St)
  | 0, _, _, _, _ => none
  | _ + 1, [], _, st, result => some (result, st)
  | fuel + 1, stmt :: rest, env, st, _ =>
    match evalStmt fuel stmt env st with
    | none => none
    | some (result, st) =>
      match result with
      | .returnValue _ v => some (v, st)
      | .error i m => some (.error i m, st)
      | r => evalProgramAux fuel rest env st r
  termination_by structural fuel _ _ _ _ => fuel

end

/-- `evalProgram` (evaluator.go). -/
def evalProgram (fuel : Nat) (stmts : List Stmt) (env : Nat) (st : St) : Option (Value × St) :=
  evalProgramAux fuel stmts env st .goNil

/-- Evaluate a whole program the way the REPL does: a fresh top-level
environment in a fresh state. -/
def runProgram (fuel : Nat) (stmts : List Stmt) : Option (Value × St) :=
  let (env, st) := newEnvironment ⟨[], 0⟩
  evalProgram fuel stmts env st

end EvalA

namespace EvalB

/-! The evaluator of `src/unnamed/part_001`: as `EvalA` plus strings in infix
position, array literals, index expressions, and builtin functions. -/

/-- Modelled from the spec: the `builtins` table (its source file is not under
`src/`; part_001 reads `builtins[node.Value]`).  §4.6 fixes the entries
`len`, `first`, `last`, `rest`, `push`, `puts`; each is a process-wide
`BUILTIN` singleton. -/
def builtinsLookup (name : String) : Option Value :=
  if name = "len" ∨ name = "first" ∨ name = "last" ∨ name = "rest" ∨
      name = "push" ∨ name = "puts" then
    some (.builtin name)
  else none

/-- Modelled from the spec: the native code behind each builtin (§4.6 — the
builtins source file is not under `src/`).  `puts` prints and returns NULL;
the printing effect is dropped here. -/
def builtinFn (name : String) (args : List Value) (st : St) : Value × St :=
  if name = "len" then
    match args with
    | [.string _ s] => let (i, st) := alloc st; (.integer i (Int.ofNat s.utf8ByteSize), st)
    | [.array _ es] => let (i, st) := alloc st; (.integer i (Int.ofNat es.length), st)
    | [a] => newError ("argument to \"len\" not supported, got " ++ a.typeTag) st
    | _ => newError ("wrong number of arguments. got=" ++ toString args.length ++ ", want=1") st
  else if name = "first" then
    match args with
    | [.array _ es] => (es.headD .null, st)
    | [a] => newError ("argument to \"first\" not supported, got " ++ a.typeTag) st
    | _ => newError ("wrong number of arguments. got=" ++ toString args.length ++ ", want=1") st
  else if name = "last" then
    match args with
    | [.array _ es] => (es.getLastD .null, st)
    | [a] => newError ("argument to \"last\" not supported, got " ++ a.typeTag) st
    | _ => newError ("wrong number of arguments. got=" ++ toString args.length ++ ", want=1") st
  else if name = "rest" then
    match args with
    | [.array _ []] => (.null, st)
    | [.array _ (_ :: es)] => let (i, st) := alloc st; (.array i es, st)
    | [a] => newError ("argument to \"rest\" not supported, got " ++ a.typeTag) st
    | _ => newError ("wrong number of arguments. got=" ++ toString args.length ++ ", want=1") st
  else if name = "push" then
    match args with
    | [.array _ es, x] => let (i, st) := alloc st; (.array i (es ++ [x]), st)
    | [a, _] => newError ("argument to \"push\" not supported, got " ++ a.typeTag) st
    | _ => newError ("wrong number of arguments. got=" ++ toString args.length ++ ", want=2") st
  else if name = "puts" then
    (.null, st)
  else
    newError ("unknown builtin: " ++ name) st

/-- `evalIdentifier` (part_001): environment lookup, then the builtins
table, then `identifier not found`. -/
def evalIdentifier (name : String) (env : Nat) (st : St) : Value × St :=
  match envGet st env name with
  | some v => (v, st)
  | none =>
    match builtinsLookup name with
    | some v => (v, st)
    | none => newError ("identifier not found: " ++ name) st

/-- `evalStringInfixExpression` (part_001): only `+` (concatenation) is
defined on two STRING operands. -/
def evalStringInfixExpression (op : String) (lVal rVal : String) (st : St) : Value × St :=
  if op = "+" then
    let (i, st) := alloc st
    (.string i (lVal ++ rVal), st)
  else newError ("unknown operator: STRING " ++ op ++ " STRING") st

/-- `evalInfixExpression` (part_001): as in evaluator.go with an additional
STRING/STRING case before the `==`/`!=` identity comparisons. -/
def evalInfixExpression (op : String) (left right : Value) (st : St) : Value × St :=
  match left, right with
  | .integer _ l, .integer _ r => evalIntegerInfixExpression op l r st
  | .string _ l, .string _ r => evalStringInfixExpression op l r st
  | left, right =>
    if op = "==" then (evalBoolean (goEq left right), st)
    else if op = "!=" then (evalBoolean (!goEq left right), st)
    else if left.typeTag ≠ right.typeTag then
      newError ("type mismatch: " ++ left.typeTag ++ " " ++ op ++ " " ++ right.typeTag) st
    else
      newError ("unknown operator: " ++ left.typeTag ++ " " ++ op ++ " " ++ right.typeTag) st

/-- `evalArrayIndexExpression` (part_001): nil for out-of-bounds indices,
the element otherwise. -/
def evalArrayIndexExpression (elements : List Value) (idx : Int) (st : St) : Value × St :=
  if idx < 0 ∨ Int.ofNat elements.length - 1 < idx then (.null, st)
  else ((elements.getD idx.toNat .null), st)

/-- `evalIndexExpression` (part_001): only ARRAY[INTEGER] is supported. -/
def evalIndexExpression (left index : Value) (st : St) : Value × St :=
  match left, index with
  | .array _ es, .integer _ idx => evalArrayIndexExpression es idx st
  | left, _ => newError ("index operator not supported: " ++ left.typeTag) st

mutual

/-- Expression cases of `Eval` (part_001). -/
def evalExpr : Nat → Expr → Nat → St → Option (Value × St)
  | 0, _, _, _ => none
  | fuel + 1, e, env, st =>
    match e with
    | .intLit n =>
      let (i, st) := alloc st
      some (.integer i n, st)
    | .strLit s =>
      let (i, st) := alloc st
      some (.string i s, st)
    | .boolLit b => some (evalBoolean b, st)
    | .prefixExpression op r =>
      match evalExpr fuel r env st with
      | none => none
      | some (rv, st) =>
        if isError rv then some (rv, st)
        else some (evalPrefixExpression op rv st)
    | .infixExpression l op r =>
      match evalExpr fuel l env st with
      | none => none
      | some (lv, st) =>
        if isError lv then some (lv, st)
        else
          match evalExpr fuel r env st with
          | none => none
          | some (rv, st) =>
            if isError rv then some (rv, st)
            else some (evalInfixExpression op lv rv st)
    | .ifExpression c cons alt => evalIfExpression fuel c cons alt env st
    | .ident name => some (evalIdentifier name env st)
    | .fnLit params body =>
      let (cenv, st) := cloneEnvironment env st
      let (i, st) := alloc st
      some (.function i params body cenv, st)
    | .callExpression f args =>
      match evalExpr fuel f env st with
      | none => none
      | some (fv, st) =>
        if isError fv then some (fv, st)
        else
          match evalExpressionsAux fuel args env st [] with
          | none => none
          | some (argVals, st) =>
            if argVals.length == 1 && isError (argVals.headD .goNil) then
              some (argVals.headD .goNil, st)
            else applyFunction fuel fv argVals st
    | .arrLit elems =>
      match evalExpressionsAux fuel elems env st [] with
      | none => none
      | some (vals, st) =>
        if vals.length == 1 && isError (vals.headD .goNil) then
          some (vals.headD .goNil, st)
        else
          let (i, st) := alloc st
          some (.array i vals, st)
    | .indexExpression l idx =>
      match evalExpr fuel l env st with
      | none => none
      | some (lv, st) =>
        if isError lv then some (lv, st)
        else
          match evalExpr fuel idx env st with
          | none => none
          | some (iv, st) =>
            if isError iv then some (iv, st)
            else some (evalIndexExpression lv iv st)
  termination_by structural fuel _ _ _ => fuel

/-- Statement cases of `Eval` (part_001). -/
def evalStmt : Nat → Stmt → Nat → St → Option (Value × St)
  | 0, _, _, _ => none
  | fuel + 1, s, env, st =>
    match s with
    | .exprS e => evalExpr fuel e env st
    | .returnS e =>
      match evalExpr fuel e env st with
      | none => none
      | some (v, st) =>
        if isError v then some (v, st)
        else
          let (i, st) := alloc st
          some (.returnValue i v, st)
    | .letS name e =>
      match evalExpr fuel e env st with
      | none => none
      | some (v, st) =>
        if isError v then some (v, st)
        else some (.goNil, envSet env name v st)
  termination_by structural fuel _ _ _ => fuel

/-- `evalBlockStatement` (part_001). -/
def evalBlockStatement : Nat → Block → Nat → St → Option (Value × St)
  | 0, _, _, _ => none
  | fuel + 1, .mk stmts, env, st => evalBlockLoop fuel stmts env st .goNil
  termination_by structural fuel _ _ _ => fuel

/-- The loop of `evalBlockStatement` (part_001). -/
def evalBlockLoop : Nat → List Stmt → Nat → St → Value → Option (Value × St)
  | 0, _, _, _, _ => none
  | _ + 1, [], _, st, result => some (result, st)
  | fuel + 1, stmt :: rest, env, st, _ =>
    match evalStmt fuel stmt env st with
    | none => none
    | some (result, st) =>
      match result with
      | .goNil => evalBlockLoop fuel rest env st .goNil
      | r =>
        if r.typeTag == "RETURN_VALUE" || r.typeTag == "ERROR" then some (r, st)
        else evalBlockLoop fuel rest env st r
  termination_by structural fuel _ _ _ _ => fuel

/-- `evalIfExpression` (part_001). -/
def evalIfExpression : Nat → Expr → Block → Option Block → Nat → St → Option (Value × St)
  | 0, _, _, _, _, _ => none
  | fuel + 1, c, cons, alt, env, st =>
    match evalExpr fuel c env st with
    | none => none
    | some (cond, st) =>
      if isError cond then some (cond, st)
      else if isTruthy cond then evalBlockStatement fuel cons env st
      else
        match alt with
        | some b => evalBlockStatement fuel b env st
        | none => some (.null, st)
  termination_by structural fuel _ _ _ _ _ => fuel

/-- The loop of `evalExpressions` (part_001). -/
def evalExpressionsAux : Nat → List Expr → Nat → St → List Value → Option (List Value × St)
  | 0, _, _, _, _ => none
  | _ + 1, [], _, st, acc => some (acc, st)
  | fuel + 1, e :: rest, env, st, acc =>
    match evalExpr fuel e env st with
    | none => none
    | some (v, st) =>
      if isError v then some ([v], st)
      else evalExpressionsAux fuel rest env st (acc ++ [v])
  termination_by structural fuel _ _ _ _ => fuel

/-- `applyFunction` (part_001): `FUNCTION` values and `BUILTIN` values are
applicable. -/
def applyFunction : Nat → Value → List Value → St → Option (Value × St)
  | 0, _, _, _ => none
  | fuel + 1, fn, args, st =>
    match fn with
    | .function _ params body fenv =>
      let (extendedEnv, st) := extendFunctionEnv params fenv args st
      match evalBlockStatement fuel body extendedEnv st with
      | none => none
      | some (evaluated, st) => some (unwrapReturnValue evaluated, st)
    | .builtin name => some (builtinFn name args st)
    | _ => some (newError ("not a function: " ++ fn.typeTag) st)
  termination_by structural fuel _ _ _ => fuel

/-- The loop of `evalProgram` (part_001). -/
def evalProgramAux : Nat → List Stmt → Nat → St → Value → Option (Value × St)
  | 0, _, _, _, _ => none
  | _ + 1, [], _, st, result => some (result, st)
  | fuel + 1, stmt :: rest, env, st, _ =>
    match evalStmt fuel stmt env st with
    | none => none
    | some (result, st) =>
      match result with
      | .returnValue _ v => some (v, st)
      | .error i m => some (.error i m, st)
      | r => evalProgramAux fuel rest env st r
  termination_by structural fuel _ _ _ _ => fuel

end

/-- `evalProgram` (part_001). -/
def evalProgram (fuel : Nat) (stmts : List Stmt) (env : Nat) (st : St) : Option (Value × St) :=
  evalProgramAux fuel stmts env st .goNil

/-- Evaluate a whole program against a fresh top-level environment. -/
def runProgram (fuel : Nat) (stmts : List Stmt) : Option (Value × St) :=
  let (env, st) := newEnvironment ⟨[], 0⟩
  evalProgram fuel stmts env st

end EvalB

/-! Test oracles on evaluation results (the allocation id of the result is
irrelevant to these checks). -/

/-- The run produced an INTEGER with the given value. -/
def expectInt (r : Option (Value × St)) (n : Int) : Bool :=
  match r with
  | some (.integer _ m, _) => m == n
  | _ => false

/-- The run produced the given BOOLEAN singleton. -/
def expectBool (r : Option (Value × St)) (b : Bool) : Bool :=
  match r with
  | some (.boolean b', _) => b' == b
  | _ => false

/-- The run produced a STRING with the given contents. -/
def expectStr (r : Option (Value × St)) (s : String) : Bool :=
  match r with
  | some (.string _ s', _) => s' == s
  | _ => false

/-- The run produced an ERROR with the given message. -/
def expectError (r : Option (Value × St)) (msg : String) : Bool :=
  match r with
  | some (.error _ m, _) => m == msg
  | _ => false

/-! Concrete programs used by the claims (ASTs as the parser would produce
them; infix chains associate to the left). -/

/-- AST of `if (10 > 1) { if (10 > 1) { return 10; } return 1; }`. -/
def c1prog : List Stmt :=
  [ .exprS (.ifExpression (.infixExpression (.intLit 10) ">" (.intLit 1))
      (.mk [ .exprS (.ifExpression (.infixExpression (.intLit 10) ">" (.intLit 1))
                (.mk [.returnS (.intLit 10)]) none),
             .returnS (.intLit 1) ])
      none) ]

/-- AST of `let x = 5; let f = fn() { x }; let x = 10; f()`. -/
def c2prog : List Stmt :=
  [ .letS "x" (.intLit 5),
    .letS "f" (.fnLit [] (.mk [.exprS (.ident "x")])),
    .letS "x" (.intLit 10),
    .exprS (.callExpression (.ident "f") []) ]

/-- AST of `let f = fn(a, b) { b }; f(1)` — the second argument is missing. -/
def c3progMissing : List Stmt :=
  [ .letS "f" (.fnLit ["a", "b"] (.mk [.exprS (.ident "b")])),
    .exprS (.callExpression (.ident "f") [.intLit 1]) ]

/-- AST of `let g = fn(a) { a }; g(1, 2)` — one argument too many. -/
def c3progExtra : List Stmt :=
  [ .letS "g" (.fnLit ["a"] (.mk [.exprS (.ident "a")])),
    .exprS (.callExpression (.ident "g") [.intLit 1, .intLit 2]) ]

/-- AST of `5 + true`. -/
def c4prog : List Stmt :=
  [ .exprS (.infixExpression (.intLit 5) "+" (.boolLit true)) ]

/-- AST of `5 == true`. -/
def c4eqProg : List Stmt :=
  [ .exprS (.infixExpression (.intLit 5) "==" (.boolLit true)) ]

/-- AST of `"Hello" + " " + "World"`. -/
def c7prog1 : List Stmt :=
  [ .exprS (.infixExpression (.infixExpression (.strLit "Hello") "+" (.strLit " "))
      "+" (.strLit "World")) ]

/-- AST of `"a" - "b"`. -/
def c7prog2 : List Stmt :=
  [ .exprS (.infixExpression (.strLit "a") "-" (.strLit "b")) ]

/-- AST of `let add = fn(a, b) { a + b }; add(3, add(4, 5))` — a program in
the shared language fragment, used to witness the evaluator equivalence. -/
def c10prog : List Stmt :=
  [ .letS "add" (.fnLit ["a", "b"]
      (.mk [.exprS (.infixExpression (.ident "a") "+" (.ident "b"))])),
    .exprS (.callExpression (.ident "add")
      [.intLit 3, .callExpression (.ident "add") [.intLit 4, .intLit 5]]) ]

/-! Characterizations of `bindParams` used by the `extendFunctionEnv`
claim. -/

/-- Delete every name of `ps` from the table, in order. -/
def delAll (t : List (String × Value)) : List String → List (String × Value)
  | [] => t
  | p :: ps => delAll (delAssoc t p) ps

/-- Bind parameters to arguments positionally on top of `t`, dropping the
parameters once the arguments run out. -/
def bindAll (t : List (String × Value)) : List String → List Value → List (String × Value)
  | [], _ => t
  | _ :: _, [] => t
  | p :: ps, a :: as => bindAll (setAssoc t p a) ps as

/-! The language fragment shared by the two evaluator versions (no string
literals, no array literals, no index expressions, no reference to a builtin
name), and purity of runtime data (no STRING / ARRAY / BUILTIN values, all
function bodies inside the fragment) — the invariant under which the two
evaluators run in lock step. -/

mutual

/-- The expression lies in the shared fragment. -/
def fragExpr : Expr → Bool
  | .ident name => (EvalB.builtinsLookup name).isNone
  | .intLit _ => true
  | .strLit _ => false
  | .boolLit _ => true
  | .prefixExpression _ r => fragExpr r
  | .infixExpression l _ r => fragExpr l && fragExpr r
  | .ifExpression c cons alt =>
    fragExpr c && fragBlock cons &&
      (match alt with
       | some b => fragBlock b
       | none => true)
  | .fnLit _ body => fragBlock body
  | .callExpression f args => fragExpr f && fragExprs args
  | .arrLit _ => false
  | .indexExpression _ _ => false

/-- All expressions lie in the shared fragment. -/
def fragExprs : List Expr → Bool
  | [] => true
  | e :: es => fragExpr e && fragExprs es

/-- The statement lies in the shared fragment. -/
def fragStmt : Stmt → Bool
  | .letS _ e => fragExpr e
  | .returnS e => fragExpr e
  | .exprS e => fragExpr e

/-- All statements lie in the shared fragment. -/
def fragStmts : List Stmt → Bool
  | [] => true
  | s :: ss => fragStmt s && fragStmts ss

/-- The block lies in the shared fragment. -/
def fragBlock : Block → Bool
  | .mk ss => fragStmts ss

end

/-- The value can arise while evaluating a fragment program: no STRING,
ARRAY or BUILTIN, and every function body lies in the fragment. -/
def pureVal : Value → Bool
  | .integer _ _ => true
  | .boolean _ => true
  | .null => true
  | .goNil => true
  | .error _ _ => true
  | .returnValue _ v => pureVal v
  | .function _ _ body _ => fragBlock body
  | .string _ _ => false
  | .array _ _ => false
  | .builtin _ => false

/-- All values in the list are pure. -/
def pureVals : List Value → Bool
  | [] => true
  | v :: vs => pureVal v && pureVals vs

/-- All values bound in the frame are pure. -/
def pureFrame (f : Frame) : Bool :=
  f.table.all fun kv => pureVal kv.2

/-- All frames of the arena are pure. -/
def pureSt (st : St) : Bool :=
  st.frames.all pureFrame

/-! Claim theorems. -/

/-- C1: a RETURN_VALUE produced by a statement of a block statement is
returned from the block as is, without unwrapping; and the nested-return
program `if (10 > 1) { if (10 > 1) { return 10; } return 1; }` evaluates to
Integer 10, the unwrap happening only at the program boundary. -/
theorem c1_block_return_no_unwrap :
    (∀ fuel s rest env st prev i v st₁,
        EvalA.evalStmt fuel s env st = some (.returnValue i v, st₁) →
        EvalA.evalBlockLoop (fuel + 1) (s :: rest) env st prev =
          some (.returnValue i v, st₁))
    ∧ expectInt (EvalA.runProgram 100 c1prog) 10 = true := by
  refine ⟨?_, by rfl⟩
  intro fuel s rest env st prev i v st₁ h
  simp [EvalA.evalBlockLoop, h, Value.typeTag]

/-- C1 witness: `return 7;` inside a block propagates as a RETURN_VALUE. -/
theorem c1_witness :
    EvalA.evalBlockLoop (10 + 1) [.returnS (.intLit 7), .exprS (.intLit 1)] 0
        ⟨[⟨[], none⟩], 0⟩ .goNil =
      some (.returnValue 1 (.integer 0 7), ⟨[⟨[], none⟩], 2⟩) :=
  c1_block_return_no_unwrap.1 10 _ _ 0 _ .goNil 1 (.integer 0 7) _ (by rfl)

/-- C2: evaluating a function literal yields a FUNCTION value capturing a
fresh clone — same bindings, same outer — of the environment current at the
definition site; hence `let x = 5; let f = fn() { x }; let x = 10; f()`
evaluates to Integer 5. -/
theorem c2_closure_captures_definition_env :
    (∀ fuel ps b env st f, st.frames[env]? = some f →
        EvalA.evalExpr (fuel + 1) (.fnLit ps b) env st =
          some (.function st.next ps b st.frames.length,
            ⟨st.frames ++ [⟨f.table, f.outer⟩], st.next + 1⟩)
        ∧ (st.frames ++ [⟨f.table, f.outer⟩])[st.frames.length]? = some ⟨f.table, f.outer⟩)
    ∧ expectInt (EvalA.runProgram 100 c2prog) 5 = true := by
  refine ⟨?_, by rfl⟩
  intro fuel ps b env st f hf
  constructor
  · simp [EvalA.evalExpr, cloneEnvironment, hf, alloc]
  · simp

/-- C2 witness: a function literal evaluated in a one-frame environment. -/
theorem c2_witness :
    EvalA.evalExpr (0 + 1) (.fnLit ["p"] (.mk [])) 0 ⟨[⟨[("y", .integer 5 3)], none⟩], 7⟩ =
      some (.function 7 ["p"] (.mk []) 1,
        ⟨[⟨[("y", .integer 5 3)], none⟩, ⟨[("y", .integer 5 3)], none⟩], 8⟩) :=
  (c2_closure_captures_definition_env.1 0 ["p"] (.mk []) 0 _ ⟨[("y", .integer 5 3)], none⟩
    (by rfl)).1

/-- Deleting a key removes it. -/
theorem getAssoc_delAssoc_self (t : List (String × Value)) (p : String) :
    getAssoc (delAssoc t p) p = none := by
  induction t with
  | nil => rfl
  | cons kv rest ih =>
    obtain ⟨k, v⟩ := kv
    by_cases hk : k = p
    · simp [delAssoc, hk, ih]
    · simp [delAssoc, getAssoc, hk, ih]

/-- Deleting any key preserves the absence of a key. -/
theorem getAssoc_delAssoc_none (t : List (String × Value)) (p q : String)
    (h : getAssoc t p = none) : getAssoc (delAssoc t q) p = none := by
  induction t with
  | nil => rfl
  | cons kv rest ih =>
    obtain ⟨k, v⟩ := kv
    by_cases hk : k = p
    · simp [getAssoc, hk] at h
    · simp only [getAssoc, if_neg hk] at h
      by_cases hq : k = q
      · simp [delAssoc, hq, ih h]
      · simp [delAssoc, getAssoc, hq, hk, ih h]

/-- `delAll` preserves the absence of a key. -/
theorem getAssoc_delAll_none : ∀ (ps : List String) (t : List (String × Value)) (p : String),
    getAssoc t p = none → getAssoc (delAll t ps) p = none
  | [], _, _, h => h
  | q :: ps, t, p, h =>
    getAssoc_delAll_none ps (delAssoc t q) p (getAssoc_delAssoc_none t p q h)

/-- After `delAll`, none of the deleted keys is present. -/
theorem getAssoc_delAll_mem : ∀ (ps : List String) (t : List (String × Value)) (p : String),
    p ∈ ps → getAssoc (delAll t ps) p = none := by
  intro ps
  induction ps with
  | nil => intro t p h; cases h
  | cons q ps ih =>
    intro t p h
    rcases List.mem_cons.1 h with h | h
    · subst h
      exact getAssoc_delAll_none ps (delAssoc t p) p (getAssoc_delAssoc_self t p)
    · exact ih (delAssoc t q) p h

/-- Setting an absent key appends it. -/
theorem setAssoc_eq_append (t : List (String × Value)) (p : String) (a : Value)
    (h : getAssoc t p = none) : setAssoc t p a = t ++ [(p, a)] := by
  induction t with
  | nil => rfl
  | cons kv rest ih =>
    obtain ⟨k, v⟩ := kv
    by_cases hk : k = p
    · simp [getAssoc, hk] at h
    · simp only [getAssoc, if_neg hk] at h
      simp [setAssoc, hk, ih h]

/-- Appending a different key preserves the absence of a key. -/
theorem getAssoc_append_single_none (t : List (String × Value)) (p q : String) (a : Value)
    (hq : getAssoc t q = none) (hpq : p ≠ q) : getAssoc (t ++ [(p, a)]) q = none := by
  induction t with
  | nil => simp [getAssoc, hpq]
  | cons kv rest ih =>
    obtain ⟨k, v⟩ := kv
    by_cases hk : k = q
    · simp [getAssoc, hk] at hq
    · simp only [getAssoc, if_neg hk] at hq
      simp [getAssoc, hk, ih hq]

/-- Binding distinct, absent parameters appends them pairwise with their
arguments. -/
theorem bindAll_eq_append : ∀ (ps : List String) (args : List Value)
    (t : List (String × Value)), ps.Nodup → (∀ q ∈ ps, getAssoc t q = none) →
    bindAll t ps args = t ++ ps.zip args := by
  intro ps
  induction ps with
  | nil => intro args t _ _; simp [bindAll]
  | cons p ps ih =>
    intro args t hnd habs
    cases args with
    | nil => simp [bindAll]
    | cons a as =>
      have hp : getAssoc t p = none := habs p (List.mem_cons_self p ps)
      have hrec := ih as (t ++ [(p, a)]) (List.nodup_cons.1 hnd).2 ?habs'
      · simp only [bindAll, setAssoc_eq_append t p a hp, hrec, List.zip_cons_cons,
          List.append_assoc, List.singleton_append]
      · intro q hq
        exact getAssoc_append_single_none t p q a (habs q (List.mem_cons_of_mem p hq))
          (fun hpq => (List.nodup_cons.1 hnd).1 (hpq ▸ hq))

/-- Binding with no remaining arguments never touches the table. -/
theorem bindAll_nil_args (t : List (String × Value)) (ps : List String) :
    bindAll t ps [] = t := by
  cases ps <;> rfl

/-- The loop of `extendFunctionEnv` acts on exactly the two frames involved:
the captured frame loses every parameter name, the new frame accumulates the
positional bindings. -/
theorem bindParams_spec : ∀ (ps : List String) (args : List Value) (st : St)
    (fenv env : Nat) (ffr efr : Frame), fenv ≠ env →
    st.frames[fenv]? = some ffr → st.frames[env]? = some efr →
    (bindParams fenv env ps args st).frames[fenv]? = some ⟨delAll ffr.table ps, ffr.outer⟩
    ∧ (bindParams fenv env ps args st).frames[env]? =
        some ⟨bindAll efr.table ps args, efr.outer⟩ := by
  intro ps
  induction ps with
  | nil =>
    intro args st fenv env ffr efr hne hf he
    exact ⟨by simpa [bindParams, delAll] using hf, by simpa [bindParams, bindAll] using he⟩
  | cons p ps ih =>
    intro args st fenv env ffr efr hne hf he
    have hflt : fenv < st.frames.length := (List.getElem?_eq_some.1 hf).1
    have helt : env < st.frames.length := (List.getElem?_eq_some.1 he).1
    cases args with
    | nil =>
      have hst : bindParams fenv env (p :: ps) [] st =
          bindParams fenv env ps [] (envDelete fenv p st) := by
        simp [bindParams]
      rw [hst]
      have hf' : (envDelete fenv p st).frames[fenv]? =
          some ⟨delAssoc ffr.table p, ffr.outer⟩ := by
        simp [envDelete, hf, List.getElem?_set_self, hflt]
      have he' : (envDelete fenv p st).frames[env]? = some efr := by
        simp [envDelete, hf, List.getElem?_set_ne hne, he]
      have hrec := ih [] _ fenv env _ efr hne hf' he'
      exact ⟨by simpa [delAll] using hrec.1, by simpa [bindAll_nil_args] using hrec.2⟩
    | cons a as =>
      have hst : bindParams fenv env (p :: ps) (a :: as) st =
          bindParams fenv env ps as (envSet env p a (envDelete fenv p st)) := by
        simp [bindParams]
      rw [hst]
      have hf1 : (envDelete fenv p st).frames[fenv]? =
          some ⟨delAssoc ffr.table p, ffr.outer⟩ := by
        simp [envDelete, hf, List.getElem?_set_self, hflt]
      have he1 : (envDelete fenv p st).frames[env]? = some efr := by
        simp [envDelete, hf, List.getElem?_set_ne hne, he]
      have helt1 : env < (envDelete fenv p st).frames.length :=
        (List.getElem?_eq_some.1 he1).1
      have hf2 : (envSet env p a (envDelete fenv p st)).frames[fenv]? =
          some ⟨delAssoc ffr.table p, ffr.outer⟩ := by
        simp [envSet, he1, List.getElem?_set_ne (Ne.symm hne), hf1]
      have he2 : (envSet env p a (envDelete fenv p st)).frames[env]? =
          some ⟨setAssoc efr.table p a, efr.outer⟩ := by
        simp [envSet, he1, List.getElem?_set_self, helt1]
      have hrec := ih as _ fenv env _ _ hne hf2 he2
      exact ⟨by simpa [delAll] using hrec.1, by simpa [bindAll] using hrec.2⟩

/-- C3: `extendFunctionEnv` returns a fresh frame enclosed over the
function's captured environment whose bindings are exactly the parameters
zipped positionally with the arguments — extra arguments are dropped by the
zip, missing arguments leave their parameters unbound — after deleting every
parameter name from the captured frame itself; and concretely a missing
argument makes the body's reference fail with `identifier not found: b`
while an extra argument is silently ignored. -/
theorem c3_extend_function_env :
    (∀ params fenv args st f, st.frames[fenv]? = some f → params.Nodup →
        (extendFunctionEnv params fenv args st).1 = st.frames.length
        ∧ (extendFunctionEnv params fenv args st).2.frames[st.frames.length]? =
            some ⟨params.zip args, some fenv⟩
        ∧ ∀ g, (extendFunctionEnv params fenv args st).2.frames[fenv]? = some g →
            ∀ p ∈ params, getAssoc g.table p = none)
    ∧ expectError (EvalA.runProgram 100 c3progMissing) "identifier not found: b" = true
    ∧ expectInt (EvalA.runProgram 100 c3progExtra) 1 = true := by
  refine ⟨?_, by rfl, by rfl⟩
  intro params fenv args st f hf hnd
  have hflt : fenv < st.frames.length := (List.getElem?_eq_some.1 hf).1
  have hne : fenv ≠ st.frames.length := Nat.ne_of_lt hflt
  have hf1 : (st.frames ++ [⟨[], some fenv⟩] : List Frame)[fenv]? = some f := by
    rw [List.getElem?_append_left hflt]
    exact hf
  have he1 : (st.frames ++ [⟨[], some fenv⟩] : List Frame)[st.frames.length]? =
      some ⟨[], some fenv⟩ := by
    simp
  have hspec := bindParams_spec params args
      ⟨st.frames ++ [⟨[], some fenv⟩], st.next⟩ fenv st.frames.length f
      ⟨[], some fenv⟩ hne hf1 he1
  refine ⟨rfl, ?_, ?_⟩
  · have : bindAll ([] : List (String × Value)) params args = params.zip args := by
      simpa using bindAll_eq_append params args [] hnd (fun q _ => rfl)
    simpa [extendFunctionEnv, newEnclosedEnvironment, this] using hspec.2
  · intro g hg p hp
    have := hspec.1
    simp only [extendFunctionEnv, newEnclosedEnvironment] at hg
    rw [this] at hg
    cases hg
    exact getAssoc_delAll_mem params f.table p hp

/-- C3 witness: one parameter, one argument — the new frame binds `a`, the
captured frame no longer contains `a`. -/
theorem c3_witness :
    (extendFunctionEnv ["a"] 0 [.integer 0 9] ⟨[⟨[("a", .integer 1 2)], none⟩], 2⟩).2.frames[1]? =
      some ⟨[("a", .integer 0 9)], some 0⟩
    ∧ getAssoc (Frame.mk [] none).table "a" = none :=
  ⟨(c3_extend_function_env.1 ["a"] 0 [.integer 0 9] ⟨[⟨[("a", .integer 1 2)], none⟩], 2⟩
      ⟨[("a", .integer 1 2)], none⟩ (by rfl) (by simp)).2.1,
    (c3_extend_function_env.1 ["a"] 0 [.integer 0 9] ⟨[⟨[("a", .integer 1 2)], none⟩], 2⟩
      ⟨[("a", .integer 1 2)], none⟩ (by rfl) (by simp)).2.2 ⟨[], none⟩ (by rfl) "a" (by simp)⟩

/-- C4 counterexample: the program `5 == true` evaluates to Boolean false —
the identity-comparison branch for `==` runs before the type-mismatch branch
of `evalInfixExpression` — and not to the type-mismatch ERROR that the claim
predicts for every operator. -/
theorem c4_counterexample :
    expectBool (EvalA.runProgram 10 c4eqProg) false = true ∧
    expectError (EvalA.runProgram 10 c4eqProg) "type mismatch: INTEGER == BOOLEAN" = false :=
  ⟨by rfl, by rfl⟩

/-- C4 (amended): when the fully evaluated operands of an infix expression
have different type tags, every operator other than `==` and `!=` yields
`Error("type mismatch: LTYPE OP RTYPE")` — in both evaluator versions — and
in particular `5 + true` evaluates to ERROR `type mismatch: INTEGER +
BOOLEAN`; the operators `==` and `!=` themselves instead hit the preceding
identity-comparison branch and yield Boolean false resp. true. -/
theorem c4_amended_type_mismatch :
    (∀ op l r st, l.typeTag ≠ r.typeTag → op ≠ "==" → op ≠ "!=" →
        EvalA.evalInfixExpression op l r st =
          newError ("type mismatch: " ++ l.typeTag ++ " " ++ op ++ " " ++ r.typeTag) st
        ∧ EvalB.evalInfixExpression op l r st =
          newError ("type mismatch: " ++ l.typeTag ++ " " ++ op ++ " " ++ r.typeTag) st)
    ∧ (∀ l r st, l.typeTag ≠ r.typeTag →
        EvalA.evalInfixExpression "==" l r st = (.boolean false, st)
        ∧ EvalA.evalInfixExpression "!=" l r st = (.boolean true, st))
    ∧ expectError (EvalA.runProgram 10 c4prog) "type mismatch: INTEGER + BOOLEAN" = true := by
  refine ⟨?_, ?_, by rfl⟩
  · intro op l r st h h2 h3
    constructor
    · cases l <;> cases r <;>
        simp_all [EvalA.evalInfixExpression, Value.typeTag]
    · cases l <;> cases r <;>
        simp_all [EvalB.evalInfixExpression, Value.typeTag]
  · intro l r st h
    constructor
    · cases l <;> cases r <;>
        simp_all [EvalA.evalInfixExpression, Value.typeTag, goEq, evalBoolean]
    · cases l <;> cases r <;>
        simp_all [EvalA.evalInfixExpression, Value.typeTag, goEq, evalBoolean]

/-- C4 witness: `INTEGER - BOOLEAN` is a type mismatch in both evaluators,
and mismatched operands under `==` / `!=` give FALSE / TRUE. -/
theorem c4_witness :
    (EvalA.evalInfixExpression "-" (.integer 0 5) (.boolean true) ⟨[], 3⟩ =
        newError "type mismatch: INTEGER - BOOLEAN" ⟨[], 3⟩
      ∧ EvalB.evalInfixExpression "-" (.integer 0 5) (.boolean true) ⟨[], 3⟩ =
        newError "type mismatch: INTEGER - BOOLEAN" ⟨[], 3⟩)
    ∧ (EvalA.evalInfixExpression "==" (.integer 0 5) (.boolean true) ⟨[], 3⟩ =
        (.boolean false, ⟨[], 3⟩)
      ∧ EvalA.evalInfixExpression "!=" (.integer 0 5) (.boolean true) ⟨[], 3⟩ =
        (.boolean true, ⟨[], 3⟩)) :=
  ⟨c4_amended_type_mismatch.1 "-" (.integer 0 5) (.boolean true) ⟨[], 3⟩
      (by simp [Value.typeTag]) (by simp) (by simp),
    c4_amended_type_mismatch.2.1 (.integer 0 5) (.boolean true) ⟨[], 3⟩
      (by simp [Value.typeTag])⟩

/-- C5: a value is truthy exactly when it is neither the NULL singleton nor
the FALSE singleton (in particular integer 0 and the empty string are
truthy); an if expression runs its consequence under a truthy condition,
runs its alternative under a falsy condition when one is present, and
yields NULL under a falsy condition otherwise. -/
theorem c5_truthiness_if :
    (∀ v, isTruthy v = true ↔ (v ≠ .null ∧ v ≠ .boolean false))
    ∧ (∀ i j, isTruthy (.integer i 0) = true ∧ isTruthy (.string j "") = true)
    ∧ (∀ fuel c cons alt env st cv st₁,
        EvalA.evalExpr fuel c env st = some (cv, st₁) → isError cv = false →
        (isTruthy cv = true →
          EvalA.evalIfExpression (fuel + 1) c cons alt env st =
            EvalA.evalBlockStatement fuel cons env st₁)
        ∧ (∀ b, isTruthy cv = false → alt = some b →
          EvalA.evalIfExpression (fuel + 1) c cons alt env st =
            EvalA.evalBlockStatement fuel b env st₁)
        ∧ (isTruthy cv = false → alt = none →
          EvalA.evalIfExpression (fuel + 1) c cons alt env st = some (.null, st₁))) := by
  refine ⟨?_, ?_, ?_⟩
  · intro v
    cases v <;> simp [isTruthy, goEq]
  · intro i j
    exact ⟨rfl, rfl⟩
  · intro fuel c cons alt env st cv st₁ h he
    refine ⟨?_, ?_, ?_⟩
    · intro ht
      simp [EvalA.evalIfExpression, h, he, ht]
    · intro b ht ha
      simp [EvalA.evalIfExpression, h, he, ht, ha]
    · intro ht ha
      simp [EvalA.evalIfExpression, h, he, ht, ha]

/-- C5 witness: `0` is a truthy condition, so `if (0) { 1 } else { 2 }`
selects the consequence. -/
theorem c5_witness :
    EvalA.evalIfExpression (8 + 1) (.intLit 0) (.mk [.exprS (.intLit 1)])
        (some (.mk [.exprS (.intLit 2)])) 0 ⟨[⟨[], none⟩], 0⟩ =
      EvalA.evalBlockStatement 8 (.mk [.exprS (.intLit 1)]) 0 ⟨[⟨[], none⟩], 1⟩ :=
  ((c5_truthiness_if.2.2 8 (.intLit 0) (.mk [.exprS (.intLit 1)])
      (some (.mk [.exprS (.intLit 2)])) 0 ⟨[⟨[], none⟩], 0⟩ (.integer 0 0)
      ⟨[⟨[], none⟩], 1⟩ (by rfl) (by rfl)).1 (by rfl))

/-- C6: identifier evaluation in part_001 consults the environment chain
first, then the builtins table, and produces `identifier not found` only
when both lookups miss. -/
theorem c6_identifier_lookup_order :
    ∀ name env st,
      (∀ v, envGet st env name = some v → EvalB.evalIdentifier name env st = (v, st))
      ∧ (∀ b, envGet st env name = none → EvalB.builtinsLookup name = some b →
          EvalB.evalIdentifier name env st = (b, st))
      ∧ (envGet st env name = none → EvalB.builtinsLookup name = none →
          EvalB.evalIdentifier name env st =
            newError ("identifier not found: " ++ name) st) := by
  intro name env st
  refine ⟨?_, ?_, ?_⟩
  · intro v h
    simp [EvalB.evalIdentifier, h]
  · intro b h hb
    simp [EvalB.evalIdentifier, h, hb]
  · intro h hb
    simp [EvalB.evalIdentifier, h, hb]

/-- C6 witness: a bound `len` shadows the builtin, an unbound `len` falls
back to the builtin, and an unbound `foobar` is an error. -/
theorem c6_witness :
    EvalB.evalIdentifier "len" 0 ⟨[⟨[("len", .integer 0 5)], none⟩], 1⟩ =
      (.integer 0 5, ⟨[⟨[("len", .integer 0 5)], none⟩], 1⟩)
    ∧ EvalB.evalIdentifier "len" 0 ⟨[⟨[], none⟩], 0⟩ = (.builtin "len", ⟨[⟨[], none⟩], 0⟩)
    ∧ EvalB.evalIdentifier "foobar" 0 ⟨[⟨[], none⟩], 0⟩ =
      newError "identifier not found: foobar" ⟨[⟨[], none⟩], 0⟩ :=
  ⟨(c6_identifier_lookup_order "len" 0 _).1 (.integer 0 5) (by rfl),
    (c6_identifier_lookup_order "len" 0 _).2.1 (.builtin "len") (by rfl) (by rfl),
    (c6_identifier_lookup_order "foobar" 0 _).2.2 (by rfl) (by rfl)⟩

/-- C7: on two STRING operands, `+` concatenates and every other operator is
`unknown operator: STRING OP STRING`; `"Hello" + " " + "World"` gives the
String `Hello World` and `"a" - "b"` the corresponding error. -/
theorem c7_string_infix :
    (∀ i j a b st,
        EvalB.evalInfixExpression "+" (.string i a) (.string j b) st =
          (.string st.next (a ++ b), ⟨st.frames, st.next + 1⟩))
    ∧ (∀ op i j a b st, op ≠ "+" →
        EvalB.evalInfixExpression op (.string i a) (.string j b) st =
          newError ("unknown operator: STRING " ++ op ++ " STRING") st)
    ∧ expectStr (EvalB.runProgram 10 c7prog1) "Hello World" = true
    ∧ expectError (EvalB.runProgram 10 c7prog2) "unknown operator: STRING - STRING" = true := by
  refine ⟨?_, ?_, by rfl, by rfl⟩
  · intro i j a b st
    simp [EvalB.evalInfixExpression, EvalB.evalStringInfixExpression, alloc]
  · intro op i j a b st hop
    simp [EvalB.evalInfixExpression, EvalB.evalStringInfixExpression, hop]

/-- C7 witness: `"ab" * "c"` is an unknown-operator error. -/
theorem c7_witness :
    EvalB.evalInfixExpression "*" (.string 0 "ab") (.string 1 "c") ⟨[], 2⟩ =
      newError "unknown operator: STRING * STRING" ⟨[], 2⟩ :=
  c7_string_infix.2.1 "*" 0 1 "ab" "c" ⟨[], 2⟩ (by simp)

/-- C8: indexing an ARRAY with an in-range INTEGER returns the element,
indexing it with a negative or too-large INTEGER returns NULL, and every
other combination of left/index values is `index operator not supported`. -/
theorem c8_index_expression :
    (∀ i es j st (n : Nat) (h : n < es.length),
        EvalB.evalIndexExpression (.array i es) (.integer j (Int.ofNat n)) st =
          (es.get ⟨n, h⟩, st))
    ∧ (∀ i es j st (n : Int), n < 0 ∨ Int.ofNat es.length ≤ n →
        EvalB.evalIndexExpression (.array i es) (.integer j n) st = (.null, st))
    ∧ (∀ l idx st, l ≠ .goNil → idx ≠ .goNil →
        (l.typeTag = "ARRAY" → idx.typeTag ≠ "INTEGER") →
        EvalB.evalIndexExpression l idx st =
          newError ("index operator not supported: " ++ l.typeTag) st) := by
  refine ⟨?_, ?_, ?_⟩
  · intro i es j st n h
    simp only [EvalB.evalIndexExpression, EvalB.evalArrayIndexExpression]
    rw [if_neg]
    · simp [List.getD_eq_getElem?_getD, List.getElem?_eq_getElem h]
    · simp only [Int.ofNat_eq_coe]
      omega
  · intro i es j st n h
    simp only [EvalB.evalIndexExpression, EvalB.evalArrayIndexExpression]
    rw [if_pos]
    simp only [Int.ofNat_eq_coe] at h ⊢
    omega
  · intro l idx st hl hi hmix
    cases l <;> cases idx <;> simp_all [EvalB.evalIndexExpression, Value.typeTag]

/-- C8 witness: `[4, 6][1]` is 6, `[4, 6][2]` is NULL, and indexing an
INTEGER is unsupported. -/
theorem c8_witness :
    EvalB.evalIndexExpression (.array 0 [.integer 1 4, .integer 2 6]) (.integer 3 (Int.ofNat 1))
        ⟨[], 4⟩ = (.integer 2 6, ⟨[], 4⟩)
    ∧ EvalB.evalIndexExpression (.array 0 [.integer 1 4, .integer 2 6]) (.integer 3 2)
        ⟨[], 4⟩ = (.null, ⟨[], 4⟩)
    ∧ EvalB.evalIndexExpression (.integer 0 7) (.integer 3 0) ⟨[], 4⟩ =
        newError "index operator not supported: INTEGER" ⟨[], 4⟩ :=
  ⟨c8_index_expression.1 0 [.integer 1 4, .integer 2 6] 3 ⟨[], 4⟩ 1 (by simp),
    c8_index_expression.2.1 0 [.integer 1 4, .integer 2 6] 3 ⟨[], 4⟩ 2 (by simp),
    c8_index_expression.2.2 (.integer 0 7) (.integer 3 0) ⟨[], 4⟩ (by simp) (by simp)
      (by simp [Value.typeTag])⟩

/-- C9 counterexample: the empty program evaluates to the Go nil result (no
object at all), which is not the NULL value the claim promises. -/
theorem c9_counterexample :
    EvalA.runProgram 1 [] = some (.goNil, ⟨[⟨[], none⟩], 0⟩)
    ∧ Value.goNil ≠ Value.null :=
  ⟨by rfl, by simp⟩

/-- C9 (amended): program evaluation proceeds statement by statement — a
RETURN_VALUE is unwrapped and returned immediately, an ERROR is returned
immediately, any other value is carried on so that the final statement's
value is the result — and an empty program yields the Go nil result (not
NULL). -/
theorem c9_amended_program_semantics :
    (∀ fuel s rest env st prev i v st₁,
        EvalA.evalStmt fuel s env st = some (.returnValue i v, st₁) →
        EvalA.evalProgramAux (fuel + 1) (s :: rest) env st prev = some (v, st₁))
    ∧ (∀ fuel s rest env st prev i m st₁,
        EvalA.evalStmt fuel s env st = some (.error i m, st₁) →
        EvalA.evalProgramAux (fuel + 1) (s :: rest) env st prev = some (.error i m, st₁))
    ∧ (∀ fuel s rest env st prev r st₁,
        EvalA.evalStmt fuel s env st = some (r, st₁) →
        (∀ i v, r ≠ .returnValue i v) → (∀ i m, r ≠ .error i m) →
        EvalA.evalProgramAux (fuel + 1) (s :: rest) env st prev =
          EvalA.evalProgramAux fuel rest env st₁ r)
    ∧ (∀ fuel env st r, EvalA.evalProgramAux (fuel + 1) [] env st r = some (r, st))
    ∧ (∀ fuel env st, EvalA.evalProgram (fuel + 1) [] env st = some (.goNil, st)) := by
  refine ⟨?_, ?_, ?_, ?_, ?_⟩
  · intro fuel s rest env st prev i v st₁ h
    simp [EvalA.evalProgramAux, h]
  · intro fuel s rest env st prev i m st₁ h
    simp [EvalA.evalProgramAux, h]
  · intro fuel s rest env st prev r st₁ h hr he
    cases r <;> simp_all [EvalA.evalProgramAux, h]
  · intro fuel env st r
    simp [EvalA.evalProgramAux]
  · intro fuel env st
    simp [EvalA.evalProgram, EvalA.evalProgramAux]

/-- C9 witness: one-statement runs of the program loop — a return is
unwrapped, an ordinary value is carried to the end of the program. -/
theorem c9_witness :
    EvalA.evalProgramAux (10 + 1) [.returnS (.intLit 7)] 0 ⟨[⟨[], none⟩], 0⟩ .goNil =
      some (.integer 0 7, ⟨[⟨[], none⟩], 2⟩)
    ∧ EvalA.evalProgramAux (10 + 1) [.exprS (.intLit 3)] 0 ⟨[⟨[], none⟩], 0⟩ .goNil =
      EvalA.evalProgramAux 10 [] 0 ⟨[⟨[], none⟩], 1⟩ (.integer 0 3)
    ∧ EvalA.evalProgram (5 + 1) [] 0 ⟨[⟨[], none⟩], 0⟩ = some (.goNil, ⟨[⟨[], none⟩], 0⟩) :=
  ⟨c9_amended_program_semantics.1 10 _ [] 0 _ .goNil 1 (.integer 0 7) _ (by rfl),
    c9_amended_program_semantics.2.2.1 10 _ [] 0 _ .goNil (.integer 0 3) _ (by rfl)
      (by intro i v h; cases h) (by intro i m h; cases h),
    c9_amended_program_semantics.2.2.2.2 5 0 _⟩

/-! Infrastructure for the equivalence of the two evaluators on the shared
fragment: purity is preserved by every state operation, and the
non-recursive helpers of the two files agree on pure inputs. -/

/-- A pure state stays pure when the allocation counter changes. -/
theorem pureSt_next (st : St) (n : Nat) : pureSt ⟨st.frames, n⟩ = pureSt st := rfl

/-- Replacing a frame by a pure frame keeps the state pure. -/
theorem pureSt_set (st : St) (i : Nat) (fr : Frame) (n : Nat) (h : pureSt st = true)
    (hfr : pureFrame fr = true) : pureSt ⟨st.frames.set i fr, n⟩ = true := by
  simp only [pureSt, List.all_eq_true] at *
  intro f hf
  rcases List.mem_or_eq_of_mem_set hf with hmem | rfl
  · exact h f hmem
  · exact hfr

/-- Appending a pure frame keeps the state pure. -/
theorem pureSt_append (st : St) (fr : Frame) (n : Nat) (h : pureSt st = true)
    (hfr : pureFrame fr = true) : pureSt ⟨st.frames ++ [fr], n⟩ = true := by
  simp only [pureSt, List.all_eq_true] at *
  intro f hf
  rcases List.mem_append.1 hf with hmem | hmem
  · exact h f hmem
  · rw [List.mem_singleton.1 hmem]
    exact hfr

/-- Every frame of a pure state is pure. -/
theorem pureSt_getElem (st : St) (i : Nat) (f : Frame) (h : pureSt st = true)
    (hf : st.frames[i]? = some f) : pureFrame f = true := by
  simp only [pureSt, List.all_eq_true] at h
  exact h f (List.getElem?_mem hf)

/-- Lookup in a pure table yields a pure value. -/
theorem getAssoc_pure : ∀ (t : List (String × Value)) (name : String) (v : Value),
    (∀ kv ∈ t, pureVal kv.2 = true) → getAssoc t name = some v → pureVal v = true := by
  intro t
  induction t with
  | nil => intro name v _ hg; cases hg
  | cons kv rest ih =>
    intro name v hall hg
    obtain ⟨k, w⟩ := kv
    by_cases hk : k = name
    · simp only [getAssoc, if_pos hk, Option.some.injEq] at hg
      exact hg ▸ hall (k, w) (List.mem_cons_self _ _)
    · simp only [getAssoc, if_neg hk] at hg
      exact ih name v (fun kv hkv => hall kv (List.mem_cons_of_mem _ hkv)) hg

/-- Updating a pure table with a pure value keeps it pure. -/
theorem setAssoc_pure : ∀ (t : List (String × Value)) (name : String) (v : Value),
    (∀ kv ∈ t, pureVal kv.2 = true) → pureVal v = true →
    ∀ kv ∈ setAssoc t name v, pureVal kv.2 = true := by
  intro t
  induction t with
  | nil =>
    intro name v _ hv kv hkv
    simp only [setAssoc, List.mem_singleton] at hkv
    rw [hkv]
    exact hv
  | cons hd rest ih =>
    intro name v hall hv kv hkv
    obtain ⟨k, w⟩ := hd
    by_cases hk : k = name
    · simp only [setAssoc, if_pos hk] at hkv
      rcases List.mem_cons.1 hkv with rfl | hmem
      · exact hv
      · exact hall kv (List.mem_cons_of_mem _ hmem)
    · simp only [setAssoc, if_neg hk] at hkv
      rcases List.mem_cons.1 hkv with rfl | hmem
      · exact hall _ (List.mem_cons_self _ _)
      · exact ih name v (fun kv hkv => hall kv (List.mem_cons_of_mem _ hkv)) hv kv hmem

/-- Deletion only removes entries. -/
theorem delAssoc_subset : ∀ (t : List (String × Value)) (k : String) (kv : String × Value),
    kv ∈ delAssoc t k → kv ∈ t := by
  intro t
  induction t with
  | nil => intro k kv h; cases h
  | cons hd rest ih =>
    intro k kv h
    obtain ⟨k', w⟩ := hd
    by_cases hk : k' = k
    · simp only [delAssoc, if_pos hk] at h
      exact List.mem_cons_of_mem _ (ih k kv h)
    · simp only [delAssoc, if_neg hk] at h
      rcases List.mem_cons.1 h with rfl | hmem
      · exact List.mem_cons_self _ _
      · exact List.mem_cons_of_mem _ (ih k kv hmem)

/-- `envSet` with a pure value keeps the state pure. -/
theorem envSet_pure (env : Nat) (name : String) (v : Value) (st : St)
    (h : pureSt st = true) (hv : pureVal v = true) : pureSt (envSet env name v st) = true := by
  unfold envSet
  cases hf : st.frames[env]? with
  | none => exact h
  | some f =>
    refine pureSt_set st env _ _ h ?_
    have hfp := pureSt_getElem st env f h hf
    simp only [pureFrame, List.all_eq_true] at hfp ⊢
    exact setAssoc_pure f.table name v hfp hv

/-- `envDelete` keeps the state pure. -/
theorem envDelete_pure (env : Nat) (name : String) (st : St)
    (h : pureSt st = true) : pureSt (envDelete env name st) = true := by
  unfold envDelete
  cases hf : st.frames[env]? with
  | none => exact h
  | some f =>
    refine pureSt_set st env _ _ h ?_
    have hfp := pureSt_getElem st env f h hf
    simp only [pureFrame, List.all_eq_true] at hfp ⊢
    exact fun kv hkv => hfp kv (delAssoc_subset f.table name kv hkv)

/-- `cloneEnvironment` keeps the state pure. -/
theorem cloneEnvironment_pure (env : Nat) (st : St) (h : pureSt st = true) :
    pureSt (cloneEnvironment env st).2 = true := by
  unfold cloneEnvironment
  cases hf : st.frames[env]? with
  | none => exact pureSt_append st _ _ h (by rfl)
  | some f => exact pureSt_append st _ _ h (pureSt_getElem st env f h hf)

/-- `newEnclosedEnvironment` keeps the state pure. -/
theorem newEnclosedEnvironment_pure (outer : Nat) (st : St) (h : pureSt st = true) :
    pureSt (newEnclosedEnvironment outer st).2 = true :=
  pureSt_append st _ _ h (by rfl)

/-- Values of a pure list are pure. -/
theorem pureVals_mem : ∀ (vs : List Value), pureVals vs = true → ∀ v ∈ vs, pureVal v = true := by
  intro vs
  induction vs with
  | nil => intro _ v hv; cases hv
  | cons w ws ih =>
    intro h v hv
    simp only [pureVals, Bool.and_eq_true] at h
    rcases List.mem_cons.1 hv with rfl | hmem
    · exact h.1
    · exact ih h.2 v hmem

/-- The tail of a pure list is pure. -/
theorem pureVals_tail : ∀ (vs : List Value), pureVals vs = true → pureVals vs.tail = true := by
  intro vs h
  cases vs with
  | nil => exact h
  | cons w ws =>
    simp only [pureVals, Bool.and_eq_true] at h
    exact h.2

/-- Appending a pure value to a pure list keeps it pure. -/
theorem pureVals_append : ∀ (vs : List Value) (v : Value), pureVals vs = true →
    pureVal v = true → pureVals (vs ++ [v]) = true := by
  intro vs
  induction vs with
  | nil => intro v _ hv; simp [pureVals, hv]
  | cons w ws ih =>
    intro v h hv
    simp only [pureVals, Bool.and_eq_true] at h ⊢
    exact ⟨h.1, ih v h.2 hv⟩

/-- The defaulted head of a pure list is pure. -/
theorem pureVals_headD (vs : List Value) (h : pureVals vs = true) :
    pureVal (vs.headD .goNil) = true := by
  cases vs with
  | nil => rfl
  | cons w ws =>
    simp only [pureVals, Bool.and_eq_true] at h
    exact h.1

/-- `bindParams` with pure arguments keeps the state pure. -/
theorem bindParams_pure : ∀ (ps : List String) (args : List Value) (fenv env : Nat) (st : St),
    pureSt st = true → pureVals args = true →
    pureSt (bindParams fenv env ps args st) = true := by
  intro ps
  induction ps with
  | nil => intro args fenv env st h _; exact h
  | cons p ps ih =>
    intro args fenv env st h hargs
    cases args with
    | nil =>
      exact ih [] fenv env _ (envDelete_pure fenv p st h) (by rfl)
    | cons a as =>
      refine ih as fenv env _ ?_ (pureVals_tail _ hargs)
      exact envSet_pure env p a _ (envDelete_pure fenv p st h)
        (pureVals_mem _ hargs a (List.mem_cons_self _ _))

/-- `extendFunctionEnv` with pure arguments keeps the state pure. -/
theorem extendFunctionEnv_pure (params : List String) (fenv : Nat) (args : List Value)
    (st : St) (h : pureSt st = true) (hargs : pureVals args = true) :
    pureSt (extendFunctionEnv params fenv args st).2 = true :=
  bindParams_pure params args fenv st.frames.length _
    (newEnclosedEnvironment_pure fenv st h) hargs

/-- `envGetAux` on pure frames yields pure values. -/
theorem envGetAux_pure : ∀ (fuel : Nat) (frames : List Frame) (env : Nat) (name : String)
    (v : Value), (∀ f ∈ frames, pureFrame f = true) →
    envGetAux fuel frames env name = some v → pureVal v = true := by
  intro fuel
  induction fuel with
  | zero => intro frames env name v _ h; cases h
  | succ fuel ih =>
    intro frames env name v hall h
    unfold envGetAux at h
    cases hf : frames[env]? with
    | none =>
      simp only [hf] at h
      cases h
    | some f =>
      simp only [hf] at h
      have hfp : pureFrame f = true := hall f (List.getElem?_mem hf)
      cases hg : getAssoc f.table name with
      | some w =>
        simp only [hg, Option.some.injEq] at h
        subst h
        exact getAssoc_pure f.table name w
          (by simpa only [pureFrame, List.all_eq_true] using hfp) hg
      | none =>
        simp only [hg] at h
        cases ho : f.outer with
        | none =>
          simp only [ho] at h
          cases h
        | some o =>
          simp only [ho] at h
          exact ih frames o name v hall h

/-- `envGet` on a pure state yields pure values. -/
theorem envGet_pure (st : St) (env : Nat) (name : String) (v : Value)
    (h : pureSt st = true) (hg : envGet st env name = some v) : pureVal v = true :=
  envGetAux_pure st.frames.length st.frames env name v
    (by simpa only [pureSt, List.all_eq_true] using h) hg

/-- Unwrapping a pure value is pure. -/
theorem pureVal_unwrap (v : Value) (h : pureVal v = true) :
    pureVal (unwrapReturnValue v) = true := by
  cases v <;> simp_all [unwrapReturnValue, pureVal]

/-- `newError` yields a pure value and keeps the state pure. -/
theorem newError_pure (msg : String) (st : St) (h : pureSt st = true) :
    pureVal (newError msg st).1 = true ∧ pureSt (newError msg st).2 = true :=
  ⟨rfl, h⟩

/-- `evalIntegerInfixExpression` yields a pure value and keeps the state
pure. -/
theorem evalIntegerInfixExpression_pure (op : String) (l r : Int) (st : St)
    (h : pureSt st = true) :
    pureVal (evalIntegerInfixExpression op l r st).1 = true ∧
      pureSt (evalIntegerInfixExpression op l r st).2 = true := by
  unfold evalIntegerInfixExpression
  split_ifs <;> exact ⟨rfl, h⟩

/-- `evalBangOperatorExpression` always yields a Boolean singleton. -/
theorem evalBangOperatorExpression_pure (r : Value) :
    pureVal (evalBangOperatorExpression r) = true := by
  unfold evalBangOperatorExpression
  split_ifs <;> rfl

/-- `evalPrefixExpression` yields a pure value and keeps the state pure. -/
theorem evalPrefixExpression_pure (op : String) (r : Value) (st : St)
    (h : pureSt st = true) :
    pureVal (evalPrefixExpression op r st).1 = true ∧
      pureSt (evalPrefixExpression op r st).2 = true := by
  unfold evalPrefixExpression evalMinusPrefixOperatorExpression
  split_ifs
  · exact ⟨evalBangOperatorExpression_pure r, h⟩
  · cases r <;> exact ⟨rfl, h⟩
  · exact ⟨rfl, h⟩

/-- `evalInfixExpression` of evaluator.go yields a pure value and keeps the
state pure. -/
theorem evalInfixExpressionA_pure (op : String) (l r : Value) (st : St)
    (h : pureSt st = true) :
    pureVal (EvalA.evalInfixExpression op l r st).1 = true ∧
      pureSt (EvalA.evalInfixExpression op l r st).2 = true := by
  unfold EvalA.evalInfixExpression
  split
  · exact evalIntegerInfixExpression_pure op _ _ st h
  · split_ifs <;> exact ⟨rfl, h⟩

/-- On pure (hence non-STRING) left operands the two versions of
`evalInfixExpression` agree. -/
theorem evalInfixExpression_AB (op : String) (l r : Value) (st : St)
    (hl : pureVal l = true) :
    EvalA.evalInfixExpression op l r st = EvalB.evalInfixExpression op l r st := by
  cases l <;> cases r <;>
    first
      | rfl
      | (exact absurd hl (by simp [pureVal]))

/-- When the name is not a builtin the two versions of `evalIdentifier`
agree. -/
theorem evalIdentifier_AB (name : String) (env : Nat) (st : St)
    (hb : EvalB.builtinsLookup name = none) :
    EvalA.evalIdentifier name env st = EvalB.evalIdentifier name env st := by
  unfold EvalA.evalIdentifier EvalB.evalIdentifier
  cases hg : envGet st env name with
  | some v => rfl
  | none => rw [hb]

/-- `evalIdentifier` of evaluator.go yields a pure value and keeps the state
pure. -/
theorem evalIdentifierA_pure (name : String) (env : Nat) (st : St)
    (h : pureSt st = true) :
    pureVal (EvalA.evalIdentifier name env st).1 = true ∧
      pureSt (EvalA.evalIdentifier name env st).2 = true := by
  unfold EvalA.evalIdentifier
  cases hg : envGet st env name with
  | some v => exact ⟨envGet_pure st env name v h hg, h⟩
  | none => exact ⟨rfl, h⟩

/-- Transport purity of a result pair along an equation. -/
theorem pure_pair_of_eq {p : Value × St} {v : Value} {st₁ : St}
    (h : p = (v, st₁)) (hp : pureVal p.1 = true ∧ pureSt p.2 = true) :
    pureVal v = true ∧ pureSt st₁ = true := by
  rw [h] at hp
  exact hp

/-- Transport purity of a list-result pair along an equation. -/
theorem pure_pairs_of_eq {p : List Value × St} {vs : List Value} {st₁ : St}
    (h : p = (vs, st₁)) (hp : pureVals p.1 = true ∧ pureSt p.2 = true) :
    pureVals vs = true ∧ pureSt st₁ = true := by
  rw [h] at hp
  exact hp

/-- One step of the block loop of evaluator.go, phrased through the result's
type tag. -/
theorem blockLoopStepA (fuel : Nat) (s : Stmt) (rest : List Stmt) (env : Nat) (st : St)
    (prev rv : Value) (rst : St) (hA : EvalA.evalStmt fuel s env st = some (rv, rst)) :
    EvalA.evalBlockLoop (fuel + 1) (s :: rest) env st prev =
      if (rv.typeTag == "RETURN_VALUE" || rv.typeTag == "ERROR") = true then some (rv, rst)
      else EvalA.evalBlockLoop fuel rest env rst rv := by
  cases rv <;> simp [EvalA.evalBlockLoop, hA, Value.typeTag]

/-- One step of the block loop of part_001. -/
theorem blockLoopStepB (fuel : Nat) (s : Stmt) (rest : List Stmt) (env : Nat) (st : St)
    (prev rv : Value) (rst : St) (hB : EvalB.evalStmt fuel s env st = some (rv, rst)) :
    EvalB.evalBlockLoop (fuel + 1) (s :: rest) env st prev =
      if (rv.typeTag == "RETURN_VALUE" || rv.typeTag == "ERROR") = true then some (rv, rst)
      else EvalB.evalBlockLoop fuel rest env rst rv := by
  cases rv <;> simp [EvalB.evalBlockLoop, hB, Value.typeTag]

/-- One step of the program loop of evaluator.go, phrased through the
result's type tag. -/
theorem progLoopStepA (fuel : Nat) (s : Stmt) (rest : List Stmt) (env : Nat) (st : St)
    (prev rv : Value) (rst : St) (hA : EvalA.evalStmt fuel s env st = some (rv, rst)) :
    EvalA.evalProgramAux (fuel + 1) (s :: rest) env st prev =
      if (rv.typeTag == "RETURN_VALUE") = true then some (unwrapReturnValue rv, rst)
      else if (rv.typeTag == "ERROR") = true then some (rv, rst)
      else EvalA.evalProgramAux fuel rest env rst rv := by
  cases rv <;> simp [EvalA.evalProgramAux, hA, Value.typeTag, unwrapReturnValue]

/-- One step of the program loop of part_001. -/
theorem progLoopStepB (fuel : Nat) (s : Stmt) (rest : List Stmt) (env : Nat) (st : St)
    (prev rv : Value) (rst : St) (hB : EvalB.evalStmt fuel s env st = some (rv, rst)) :
    EvalB.evalProgramAux (fuel + 1) (s :: rest) env st prev =
      if (rv.typeTag == "RETURN_VALUE") = true then some (unwrapReturnValue rv, rst)
      else if (rv.typeTag == "ERROR") = true then some (rv, rst)
      else EvalB.evalProgramAux fuel rest env rst rv := by
  cases rv <;> simp [EvalB.evalProgramAux, hB, Value.typeTag, unwrapReturnValue]

/-- Simultaneous fuel induction: on the shared fragment, starting from a pure
state, the evaluators of evaluator.go and part_001 compute identical results,
and every result of evaluator.go is pure. -/
theorem evalAB : ∀ fuel : Nat,
    (∀ e env st, fragExpr e = true → pureSt st = true →
      EvalA.evalExpr fuel e env st = EvalB.evalExpr fuel e env st
      ∧ ∀ v st₁, EvalA.evalExpr fuel e env st = some (v, st₁) →
          pureVal v = true ∧ pureSt st₁ = true)
    ∧ (∀ s env st, fragStmt s = true → pureSt st = true →
      EvalA.evalStmt fuel s env st = EvalB.evalStmt fuel s env st
      ∧ ∀ v st₁, EvalA.evalStmt fuel s env st = some (v, st₁) →
          pureVal v = true ∧ pureSt st₁ = true)
    ∧ (∀ b env st, fragBlock b = true → pureSt st = true →
      EvalA.evalBlockStatement fuel b env st = EvalB.evalBlockStatement fuel b env st
      ∧ ∀ v st₁, EvalA.evalBlockStatement fuel b env st = some (v, st₁) →
          pureVal v = true ∧ pureSt st₁ = true)
    ∧ (∀ ss env st prev, fragStmts ss = true → pureSt st = true → pureVal prev = true →
      EvalA.evalBlockLoop fuel ss env st prev = EvalB.evalBlockLoop fuel ss env st prev
      ∧ ∀ v st₁, EvalA.evalBlockLoop fuel ss env st prev = some (v, st₁) →
          pureVal v = true ∧ pureSt st₁ = true)
    ∧ (∀ c cons alt env st, fragExpr c = true → fragBlock cons = true →
        (∀ b, alt = some b → fragBlock b = true) → pureSt st = true →
      EvalA.evalIfExpression fuel c cons alt env st = EvalB.evalIfExpression fuel c cons alt env st
      ∧ ∀ v st₁, EvalA.evalIfExpression fuel c cons alt env st = some (v, st₁) →
          pureVal v = true ∧ pureSt st₁ = true)
    ∧ (∀ es env st acc, fragExprs es = true → pureSt st = true → pureVals acc = true →
      EvalA.evalExpressionsAux fuel es env st acc = EvalB.evalExpressionsAux fuel es env st acc
      ∧ ∀ vs st₁, EvalA.evalExpressionsAux fuel es env st acc = some (vs, st₁) →
          pureVals vs = true ∧ pureSt st₁ = true)
    ∧ (∀ fn args st, pureVal fn = true → pureVals args = true → pureSt st = true →
      EvalA.applyFunction fuel fn args st = EvalB.applyFunction fuel fn args st
      ∧ ∀ v st₁, EvalA.applyFunction fuel fn args st = some (v, st₁) →
          pureVal v = true ∧ pureSt st₁ = true)
    ∧ (∀ ss env st prev, fragStmts ss = true → pureSt st = true → pureVal prev = true →
      EvalA.evalProgramAux fuel ss env st prev = EvalB.evalProgramAux fuel ss env st prev
      ∧ ∀ v st₁, EvalA.evalProgramAux fuel ss env st prev = some (v, st₁) →
          pureVal v = true ∧ pureSt st₁ = true) := by
  intro fuel
  induction fuel with
  | zero =>
    exact ⟨fun e env st _ _ => ⟨rfl, fun v st₁ h => by simp only [EvalA.evalExpr, reduceCtorEq] at h⟩,
      fun s env st _ _ => ⟨rfl, fun v st₁ h => by simp only [EvalA.evalStmt, reduceCtorEq] at h⟩,
      fun b env st _ _ =>
        ⟨rfl, fun v st₁ h => by simp only [EvalA.evalBlockStatement, reduceCtorEq] at h⟩,
      fun ss env st prev _ _ _ =>
        ⟨rfl, fun v st₁ h => by simp only [EvalA.evalBlockLoop, reduceCtorEq] at h⟩,
      fun c cons alt env st _ _ _ _ =>
        ⟨rfl, fun v st₁ h => by simp only [EvalA.evalIfExpression, reduceCtorEq] at h⟩,
      fun es env st acc _ _ _ =>
        ⟨rfl, fun vs st₁ h => by simp only [EvalA.evalExpressionsAux, reduceCtorEq] at h⟩,
      fun fn args st _ _ _ =>
        ⟨rfl, fun v st₁ h => by simp only [EvalA.applyFunction, reduceCtorEq] at h⟩,
      fun ss env st prev _ _ _ =>
        ⟨rfl, fun v st₁ h => by simp only [EvalA.evalProgramAux, reduceCtorEq] at h⟩⟩
  | succ fuel ih =>
    obtain ⟨ihE, ihS, ihB, ihL, ihIf, ihEx, ihAp, ihP⟩ := ih
    refine ⟨?_, ?_, ?_, ?_, ?_, ?_, ?_, ?_⟩
    -- expressions
    · intro e env st hfrag hpure
      cases e with
      | ident name =>
        have hb : EvalB.builtinsLookup name = none := by
          unfold fragExpr at hfrag
          simpa [Option.isNone_iff_eq_none] using hfrag
        refine ⟨?_, ?_⟩
        · simp only [EvalA.evalExpr, EvalB.evalExpr, evalIdentifier_AB name env st hb]
        · intro v st₁ h
          simp only [EvalA.evalExpr] at h
          exact pure_pair_of_eq (Option.some.inj h) (evalIdentifierA_pure name env st hpure)
      | intLit n =>
        refine ⟨rfl, ?_⟩
        intro v st₁ h
        simp only [EvalA.evalExpr, alloc] at h
        exact pure_pair_of_eq (Option.some.inj h) ⟨rfl, hpure⟩
      | strLit s =>
        unfold fragExpr at hfrag
        simp at hfrag
      | boolLit b =>
        refine ⟨rfl, ?_⟩
        intro v st₁ h
        simp only [EvalA.evalExpr] at h
        exact pure_pair_of_eq (Option.some.inj h) ⟨rfl, hpure⟩
      | prefixExpression op r =>
        unfold fragExpr at hfrag
        have hr : fragExpr r = true := hfrag
        obtain ⟨heq, hp⟩ := ihE r env st hr hpure
        refine ⟨?_, ?_⟩
        · cases hA : EvalA.evalExpr fuel r env st with
          | none => simp only [EvalA.evalExpr, EvalB.evalExpr, ← heq, hA]
          | some q =>
            obtain ⟨rv, rst⟩ := q
            cases herr : isError rv with
            | true => simp only [EvalA.evalExpr, EvalB.evalExpr, ← heq, hA, herr, if_true]
            | false =>
              simp only [EvalA.evalExpr, EvalB.evalExpr, ← heq, hA, herr,
                Bool.false_eq_true, if_false]
        · intro v st₁ h
          cases hA : EvalA.evalExpr fuel r env st with
          | none => simp only [EvalA.evalExpr, hA, reduceCtorEq] at h
          | some q =>
            obtain ⟨rv, rst⟩ := q
            obtain ⟨hrv, hrst⟩ := hp rv rst hA
            cases herr : isError rv with
            | true =>
              simp only [EvalA.evalExpr, hA, herr, if_true] at h
              exact pure_pair_of_eq (Option.some.inj h) ⟨hrv, hrst⟩
            | false =>
              simp only [EvalA.evalExpr, hA, herr, Bool.false_eq_true, if_false] at h
              exact pure_pair_of_eq (Option.some.inj h)
                (evalPrefixExpression_pure op rv rst hrst)
      | infixExpression l op r =>
        unfold fragExpr at hfrag
        simp only [Bool.and_eq_true] at hfrag
        obtain ⟨hl, hr⟩ := hfrag
        obtain ⟨heqL, hpL⟩ := ihE l env st hl hpure
        refine ⟨?_, ?_⟩
        · cases hA : EvalA.evalExpr fuel l env st with
          | none => simp only [EvalA.evalExpr, EvalB.evalExpr, ← heqL, hA]
          | some q =>
            obtain ⟨lv, lst⟩ := q
            obtain ⟨hlv, hlst⟩ := hpL lv lst hA
            obtain ⟨heqR, hpR⟩ := ihE r env lst hr hlst
            cases herr : isError lv with
            | true => simp only [EvalA.evalExpr, EvalB.evalExpr, ← heqL, hA, herr, if_true]
            | false =>
              cases hA2 : EvalA.evalExpr fuel r env lst with
              | none =>
                simp only [EvalA.evalExpr, EvalB.evalExpr, ← heqL, ← heqR, hA, hA2, herr,
                  Bool.false_eq_true, if_false]
              | some q2 =>
                obtain ⟨rv, rst⟩ := q2
                cases herr2 : isError rv with
                | true =>
                  simp only [EvalA.evalExpr, EvalB.evalExpr, ← heqL, ← heqR, hA, hA2, herr,
                    herr2, Bool.false_eq_true, if_false, if_true]
                | false =>
                  simp only [EvalA.evalExpr, EvalB.evalExpr, ← heqL, ← heqR, hA, hA2, herr,
                    herr2, Bool.false_eq_true, if_false,
                    evalInfixExpression_AB op lv rv rst hlv]
        · intro v st₁ h
          cases hA : EvalA.evalExpr fuel l env st with
          | none => simp only [EvalA.evalExpr, hA, reduceCtorEq] at h
          | some q =>
            obtain ⟨lv, lst⟩ := q
            obtain ⟨hlv, hlst⟩ := hpL lv lst hA
            cases herr : isError lv with
            | true =>
              simp only [EvalA.evalExpr, hA, herr, if_true] at h
              exact pure_pair_of_eq (Option.some.inj h) ⟨hlv, hlst⟩
            | false =>
              obtain ⟨heqR, hpR⟩ := ihE r env lst hr hlst
              cases hA2 : EvalA.evalExpr fuel r env lst with
              | none =>
                simp only [EvalA.evalExpr, hA, hA2, herr, Bool.false_eq_true, if_false,
                  reduceCtorEq] at h
              | some q2 =>
                obtain ⟨rv, rst⟩ := q2
                obtain ⟨hrv, hrst⟩ := hpR rv rst hA2
                cases herr2 : isError rv with
                | true =>
                  simp only [EvalA.evalExpr, hA, hA2, herr, herr2, Bool.false_eq_true,
                    if_false, if_true] at h
                  exact pure_pair_of_eq (Option.some.inj h) ⟨hrv, hrst⟩
                | false =>
                  simp only [EvalA.evalExpr, hA, hA2, herr, herr2, Bool.false_eq_true,
                    if_false] at h
                  exact pure_pair_of_eq (Option.some.inj h)
                    (evalInfixExpressionA_pure op lv rv rst hrst)
      | ifExpression c cons alt =>
        unfold fragExpr at hfrag
        simp only [Bool.and_eq_true] at hfrag
        obtain ⟨⟨hc, hcons⟩, halt⟩ := hfrag
        have halt' : ∀ b, alt = some b → fragBlock b = true := by
          intro b hb
          rw [hb] at halt
          exact halt
        refine ⟨?_, ?_⟩
        · simp only [EvalA.evalExpr, EvalB.evalExpr]
          exact (ihIf c cons alt env st hc hcons halt' hpure).1
        · intro v st₁ h
          simp only [EvalA.evalExpr] at h
          exact (ihIf c cons alt env st hc hcons halt' hpure).2 v st₁ h
      | fnLit params body =>
        unfold fragExpr at hfrag
        have hbody : fragBlock body = true := hfrag
        refine ⟨rfl, ?_⟩
        intro v st₁ h
        simp only [EvalA.evalExpr] at h
        cases hc : cloneEnvironment env st with
        | mk cenv cst =>
          simp only [hc, alloc] at h
          have hpc : pureSt cst = true := by
            have := cloneEnvironment_pure env st hpure
            rw [hc] at this
            exact this
          exact pure_pair_of_eq (Option.some.inj h) ⟨hbody, hpc⟩
      | callExpression f args =>
        unfold fragExpr at hfrag
        simp only [Bool.and_eq_true] at hfrag
        obtain ⟨hf, hargs⟩ := hfrag
        obtain ⟨heqF, hpF⟩ := ihE f env st hf hpure
        refine ⟨?_, ?_⟩
        · cases hA : EvalA.evalExpr fuel f env st with
          | none => simp only [EvalA.evalExpr, EvalB.evalExpr, ← heqF, hA]
          | some q =>
            obtain ⟨fv, fst⟩ := q
            obtain ⟨hfv, hfst⟩ := hpF fv fst hA
            cases herr : isError fv with
            | true => simp only [EvalA.evalExpr, EvalB.evalExpr, ← heqF, hA, herr, if_true]
            | false =>
              obtain ⟨heqEx, hpEx⟩ := ihEx args env fst [] hargs hfst rfl
              cases hE : EvalA.evalExpressionsAux fuel args env fst [] with
              | none =>
                simp only [EvalA.evalExpr, EvalB.evalExpr, ← heqF, ← heqEx, hA, hE, herr,
                  Bool.false_eq_true, if_false]
              | some q2 =>
                obtain ⟨argVals, ast⟩ := q2
                obtain ⟨hvals, hast⟩ := hpEx argVals ast hE
                cases hcnd : (argVals.length == 1 && isError (argVals.headD .goNil)) with
                | true =>
                  simp only [EvalA.evalExpr, EvalB.evalExpr, ← heqF, ← heqEx, hA, hE, herr,
                    hcnd, Bool.false_eq_true, if_false, if_true]
                | false =>
                  simp only [EvalA.evalExpr, EvalB.evalExpr, ← heqF, ← heqEx, hA, hE, herr,
                    hcnd, Bool.false_eq_true, if_false]
                  exact (ihAp fv argVals ast hfv hvals hast).1
        · intro v st₁ h
          cases hA : EvalA.evalExpr fuel f env st with
          | none => simp only [EvalA.evalExpr, hA, reduceCtorEq] at h
          | some q =>
            obtain ⟨fv, fst⟩ := q
            obtain ⟨hfv, hfst⟩ := hpF fv fst hA
            cases herr : isError fv with
            | true =>
              simp only [EvalA.evalExpr, hA, herr, if_true] at h
              exact pure_pair_of_eq (Option.some.inj h) ⟨hfv, hfst⟩
            | false =>
              obtain ⟨heqEx, hpEx⟩ := ihEx args env fst [] hargs hfst rfl
              cases hE : EvalA.evalExpressionsAux fuel args env fst [] with
              | none =>
                simp only [EvalA.evalExpr, hA, hE, herr, Bool.false_eq_true, if_false,
                  reduceCtorEq] at h
              | some q2 =>
                obtain ⟨argVals, ast⟩ := q2
                obtain ⟨hvals, hast⟩ := hpEx argVals ast hE
                cases hcnd : (argVals.length == 1 && isError (argVals.headD .goNil)) with
                | true =>
                  simp only [EvalA.evalExpr, hA, hE, herr, hcnd, Bool.false_eq_true, if_false,
                    if_true] at h
                  exact pure_pair_of_eq (Option.some.inj h) ⟨pureVals_headD argVals hvals, hast⟩
                | false =>
                  simp only [EvalA.evalExpr, hA, hE, herr, hcnd, Bool.false_eq_true,
                    if_false] at h
                  exact (ihAp fv argVals ast hfv hvals hast).2 v st₁ h
      | arrLit elems =>
        unfold fragExpr at hfrag
        simp at hfrag
      | indexExpression l i =>
        unfold fragExpr at hfrag
        simp at hfrag
    -- statements
    · intro s env st hfrag hpure
      cases s with
      | exprS e =>
        unfold fragStmt at hfrag
        have he : fragExpr e = true := hfrag
        refine ⟨?_, ?_⟩
        · simp only [EvalA.evalStmt, EvalB.evalStmt]
          exact (ihE e env st he hpure).1
        · intro v st₁ h
          simp only [EvalA.evalStmt] at h
          exact (ihE e env st he hpure).2 v st₁ h
      | returnS e =>
        unfold fragStmt at hfrag
        have hfe : fragExpr e = true := hfrag
        obtain ⟨heq, hp⟩ := ihE e env st hfe hpure
        refine ⟨?_, ?_⟩
        · cases hA : EvalA.evalExpr fuel e env st with
          | none => simp only [EvalA.evalStmt, EvalB.evalStmt, ← heq, hA]
          | some q =>
            obtain ⟨rv, rst⟩ := q
            cases herr : isError rv with
            | true => simp only [EvalA.evalStmt, EvalB.evalStmt, ← heq, hA, herr, if_true]
            | false =>
              simp only [EvalA.evalStmt, EvalB.evalStmt, ← heq, hA, herr,
                Bool.false_eq_true, if_false]
        · intro v st₁ h
          cases hA : EvalA.evalExpr fuel e env st with
          | none => simp only [EvalA.evalStmt, hA, reduceCtorEq] at h
          | some q =>
            obtain ⟨rv, rst⟩ := q
            obtain ⟨hrv, hrst⟩ := hp rv rst hA
            cases herr : isError rv with
            | true =>
              simp only [EvalA.evalStmt, hA, herr, if_true] at h
              exact pure_pair_of_eq (Option.some.inj h) ⟨hrv, hrst⟩
            | false =>
              simp only [EvalA.evalStmt, hA, herr, Bool.false_eq_true, if_false, alloc] at h
              exact pure_pair_of_eq (Option.some.inj h) ⟨hrv, hrst⟩
      | letS name e =>
        unfold fragStmt at hfrag
        have hfe : fragExpr e = true := hfrag
        obtain ⟨heq, hp⟩ := ihE e env st hfe hpure
        refine ⟨?_, ?_⟩
        · cases hA : EvalA.evalExpr fuel e env st with
          | none => simp only [EvalA.evalStmt, EvalB.evalStmt, ← heq, hA]
          | some q =>
            obtain ⟨rv, rst⟩ := q
            cases herr : isError rv with
            | true => simp only [EvalA.evalStmt, EvalB.evalStmt, ← heq, hA, herr, if_true]
            | false =>
              simp only [EvalA.evalStmt, EvalB.evalStmt, ← heq, hA, herr,
                Bool.false_eq_true, if_false]
        · intro v st₁ h
          cases hA : EvalA.evalExpr fuel e env st with
          | none => simp only [EvalA.evalStmt, hA, reduceCtorEq] at h
          | some q =>
            obtain ⟨rv, rst⟩ := q
            obtain ⟨hrv, hrst⟩ := hp rv rst hA
            cases herr : isError rv with
            | true =>
              simp only [EvalA.evalStmt, hA, herr, if_true] at h
              exact pure_pair_of_eq (Option.some.inj h) ⟨hrv, hrst⟩
            | false =>
              simp only [EvalA.evalStmt, hA, herr, Bool.false_eq_true, if_false] at h
              exact pure_pair_of_eq (Option.some.inj h)
                ⟨rfl, envSet_pure env name rv rst hrst hrv⟩
    -- block statements
    · intro b env st hfrag hpure
      cases b with
      | mk ss =>
        unfold fragBlock at hfrag
        have hss : fragStmts ss = true := hfrag
        refine ⟨?_, ?_⟩
        · simp only [EvalA.evalBlockStatement, EvalB.evalBlockStatement]
          exact (ihL ss env st .goNil hss hpure rfl).1
        · intro v st₁ h
          simp only [EvalA.evalBlockStatement] at h
          exact (ihL ss env st .goNil hss hpure rfl).2 v st₁ h
    -- the block loop
    · intro ss env st prev hfrag hpure hprev
      cases ss with
      | nil =>
        refine ⟨rfl, ?_⟩
        intro v st₁ h
        simp only [EvalA.evalBlockLoop] at h
        exact pure_pair_of_eq (Option.some.inj h) ⟨hprev, hpure⟩
      | cons s rest =>
        unfold fragStmts at hfrag
        simp only [Bool.and_eq_true] at hfrag
        obtain ⟨hs, hrest⟩ := hfrag
        obtain ⟨heqS, hpS⟩ := ihS s env st hs hpure
        refine ⟨?_, ?_⟩
        · cases hA : EvalA.evalStmt fuel s env st with
          | none => simp only [EvalA.evalBlockLoop, EvalB.evalBlockLoop, ← heqS, hA]
          | some q =>
            obtain ⟨rv, rst⟩ := q
            obtain ⟨hrv, hrst⟩ := hpS rv rst hA
            have hAB : EvalB.evalStmt fuel s env st = some (rv, rst) := by
              rw [← heqS]
              exact hA
            rw [blockLoopStepA fuel s rest env st prev rv rst hA,
              blockLoopStepB fuel s rest env st prev rv rst hAB]
            by_cases h1 : (rv.typeTag == "RETURN_VALUE" || rv.typeTag == "ERROR") = true
            · rw [if_pos h1, if_pos h1]
            · rw [if_neg h1, if_neg h1]
              exact (ihL rest env rst rv hrest hrst hrv).1
        · intro v st₁ h
          cases hA : EvalA.evalStmt fuel s env st with
          | none => simp only [EvalA.evalBlockLoop, hA, reduceCtorEq] at h
          | some q =>
            obtain ⟨rv, rst⟩ := q
            obtain ⟨hrv, hrst⟩ := hpS rv rst hA
            rw [blockLoopStepA fuel s rest env st prev rv rst hA] at h
            by_cases h1 : (rv.typeTag == "RETURN_VALUE" || rv.typeTag == "ERROR") = true
            · rw [if_pos h1] at h
              exact pure_pair_of_eq (Option.some.inj h) ⟨hrv, hrst⟩
            · rw [if_neg h1] at h
              exact (ihL rest env rst rv hrest hrst hrv).2 v st₁ h
    -- if expressions
    · intro c cons alt env st hc hcons halt hpure
      obtain ⟨heqC, hpC⟩ := ihE c env st hc hpure
      refine ⟨?_, ?_⟩
      · cases hA : EvalA.evalExpr fuel c env st with
        | none => simp only [EvalA.evalIfExpression, EvalB.evalIfExpression, ← heqC, hA]
        | some q =>
          obtain ⟨cv, cst⟩ := q
          obtain ⟨hcv, hcst⟩ := hpC cv cst hA
          cases herr : isError cv with
          | true =>
            simp only [EvalA.evalIfExpression, EvalB.evalIfExpression, ← heqC, hA, herr,
              if_true]
          | false =>
            cases ht : isTruthy cv with
            | true =>
              simp only [EvalA.evalIfExpression, EvalB.evalIfExpression, ← heqC, hA, herr,
                ht, Bool.false_eq_true, if_false, if_true]
              exact (ihB cons env cst hcons hcst).1
            | false =>
              cases alt with
              | none =>
                simp only [EvalA.evalIfExpression, EvalB.evalIfExpression, ← heqC, hA, herr,
                  ht, Bool.false_eq_true, if_false]
              | some ab =>
                simp only [EvalA.evalIfExpression, EvalB.evalIfExpression, ← heqC, hA, herr,
                  ht, Bool.false_eq_true, if_false]
                exact (ihB ab env cst (halt ab rfl) hcst).1
      · intro v st₁ h
        cases hA : EvalA.evalExpr fuel c env st with
        | none => simp only [EvalA.evalIfExpression, hA, reduceCtorEq] at h
        | some q =>
          obtain ⟨cv, cst⟩ := q
          obtain ⟨hcv, hcst⟩ := hpC cv cst hA
          cases herr : isError cv with
          | true =>
            simp only [EvalA.evalIfExpression, hA, herr, if_true] at h
            exact pure_pair_of_eq (Option.some.inj h) ⟨hcv, hcst⟩
          | false =>
            cases ht : isTruthy cv with
            | true =>
              simp only [EvalA.evalIfExpression, hA, herr, ht, Bool.false_eq_true, if_false,
                if_true] at h
              exact (ihB cons env cst hcons hcst).2 v st₁ h
            | false =>
              cases alt with
              | none =>
                simp only [EvalA.evalIfExpression, hA, herr, ht, Bool.false_eq_true,
                  if_false] at h
                exact pure_pair_of_eq (Option.some.inj h) ⟨rfl, hcst⟩
              | some ab =>
                simp only [EvalA.evalIfExpression, hA, herr, ht, Bool.false_eq_true,
                  if_false] at h
                exact (ihB ab env cst (halt ab rfl) hcst).2 v st₁ h
    -- the argument loop
    · intro es env st acc hfrag hpure hacc
      cases es with
      | nil =>
        refine ⟨rfl, ?_⟩
        intro vs st₁ h
        simp only [EvalA.evalExpressionsAux] at h
        exact pure_pairs_of_eq (Option.some.inj h) ⟨hacc, hpure⟩
      | cons e rest =>
        unfold fragExprs at hfrag
        simp only [Bool.and_eq_true] at hfrag
        obtain ⟨he, hrest⟩ := hfrag
        obtain ⟨heqE, hpE⟩ := ihE e env st he hpure
        refine ⟨?_, ?_⟩
        · cases hA : EvalA.evalExpr fuel e env st with
          | none => simp only [EvalA.evalExpressionsAux, EvalB.evalExpressionsAux, ← heqE, hA]
          | some q =>
            obtain ⟨av, ast⟩ := q
            obtain ⟨hav, hast⟩ := hpE av ast hA
            cases herr : isError av with
            | true =>
              simp only [EvalA.evalExpressionsAux, EvalB.evalExpressionsAux, ← heqE, hA,
                herr, if_true]
            | false =>
              simp only [EvalA.evalExpressionsAux, EvalB.evalExpressionsAux, ← heqE, hA,
                herr, Bool.false_eq_true, if_false]
              exact (ihEx rest env ast (acc ++ [av]) hrest hast
                (pureVals_append acc av hacc hav)).1
        · intro vs st₁ h
          cases hA : EvalA.evalExpr fuel e env st with
          | none => simp only [EvalA.evalExpressionsAux, hA, reduceCtorEq] at h
          | some q =>
            obtain ⟨av, ast⟩ := q
            obtain ⟨hav, hast⟩ := hpE av ast hA
            cases herr : isError av with
            | true =>
              simp only [EvalA.evalExpressionsAux, hA, herr, if_true] at h
              refine pure_pairs_of_eq (Option.some.inj h) ⟨?_, hast⟩
              simp [pureVals, hav]
            | false =>
              simp only [EvalA.evalExpressionsAux, hA, herr, Bool.false_eq_true,
                if_false] at h
              exact (ihEx rest env ast (acc ++ [av]) hrest hast
                (pureVals_append acc av hacc hav)).2 vs st₁ h
    -- function application
    · intro fn args st hfn hargs hpure
      cases fn with
      | function fid params body fenv =>
        unfold pureVal at hfn
        have hbody : fragBlock body = true := hfn
        cases hext : extendFunctionEnv params fenv args st with
        | mk extEnv extSt =>
          have hpext : pureSt extSt = true := by
            have := extendFunctionEnv_pure params fenv args st hpure hargs
            rw [hext] at this
            exact this
          obtain ⟨heqB, hpB⟩ := ihB body extEnv extSt hbody hpext
          refine ⟨?_, ?_⟩
          · cases hA : EvalA.evalBlockStatement fuel body extEnv extSt with
            | none => simp only [EvalA.applyFunction, EvalB.applyFunction, hext, ← heqB, hA]
            | some q =>
              obtain ⟨ev, est⟩ := q
              simp only [EvalA.applyFunction, EvalB.applyFunction, hext, ← heqB, hA]
          · intro v st₁ h
            cases hA : EvalA.evalBlockStatement fuel body extEnv extSt with
            | none => simp only [EvalA.applyFunction, hext, hA, reduceCtorEq] at h
            | some q =>
              obtain ⟨ev, est⟩ := q
              obtain ⟨hev, hest⟩ := hpB ev est hA
              simp only [EvalA.applyFunction, hext, hA] at h
              exact pure_pair_of_eq (Option.some.inj h) ⟨pureVal_unwrap ev hev, hest⟩
      | builtin name => exact absurd hfn (by simp [pureVal])
      | string i s => exact absurd hfn (by simp [pureVal])
      | array i es => exact absurd hfn (by simp [pureVal])
      | integer i n =>
        refine ⟨by simp only [EvalA.applyFunction, EvalB.applyFunction], ?_⟩
        intro v st₁ h
        simp only [EvalA.applyFunction, newError, alloc] at h
        exact pure_pair_of_eq (Option.some.inj h) ⟨rfl, hpure⟩
      | boolean bv =>
        refine ⟨by simp only [EvalA.applyFunction, EvalB.applyFunction], ?_⟩
        intro v st₁ h
        simp only [EvalA.applyFunction, newError, alloc] at h
        exact pure_pair_of_eq (Option.some.inj h) ⟨rfl, hpure⟩
      | null =>
        refine ⟨by simp only [EvalA.applyFunction, EvalB.applyFunction], ?_⟩
        intro v st₁ h
        simp only [EvalA.applyFunction, newError, alloc] at h
        exact pure_pair_of_eq (Option.some.inj h) ⟨rfl, hpure⟩
      | returnValue i w =>
        refine ⟨by simp only [EvalA.applyFunction, EvalB.applyFunction], ?_⟩
        intro v st₁ h
        simp only [EvalA.applyFunction, newError, alloc] at h
        exact pure_pair_of_eq (Option.some.inj h) ⟨rfl, hpure⟩
      | error i m =>
        refine ⟨by simp only [EvalA.applyFunction, EvalB.applyFunction], ?_⟩
        intro v st₁ h
        simp only [EvalA.applyFunction, newError, alloc] at h
        exact pure_pair_of_eq (Option.some.inj h) ⟨rfl, hpure⟩
      | goNil =>
        refine ⟨by simp only [EvalA.applyFunction, EvalB.applyFunction], ?_⟩
        intro v st₁ h
        simp only [EvalA.applyFunction, newError, alloc] at h
        exact pure_pair_of_eq (Option.some.inj h) ⟨rfl, hpure⟩
    -- the program loop
    · intro ss env st prev hfrag hpure hprev
      cases ss with
      | nil =>
        refine ⟨rfl, ?_⟩
        intro v st₁ h
        simp only [EvalA.evalProgramAux] at h
        exact pure_pair_of_eq (Option.some.inj h) ⟨hprev, hpure⟩
      | cons s rest =>
        unfold fragStmts at hfrag
        simp only [Bool.and_eq_true] at hfrag
        obtain ⟨hs, hrest⟩ := hfrag
        obtain ⟨heqS, hpS⟩ := ihS s env st hs hpure
        refine ⟨?_, ?_⟩
        · cases hA : EvalA.evalStmt fuel s env st with
          | none => simp only [EvalA.evalProgramAux, EvalB.evalProgramAux, ← heqS, hA]
          | some q =>
            obtain ⟨rv, rst⟩ := q
            obtain ⟨hrv, hrst⟩ := hpS rv rst hA
            have hAB : EvalB.evalStmt fuel s env st = some (rv, rst) := by
              rw [← heqS]
              exact hA
            rw [progLoopStepA fuel s rest env st prev rv rst hA,
              progLoopStepB fuel s rest env st prev rv rst hAB]
            by_cases h1 : (rv.typeTag == "RETURN_VALUE") = true
            · rw [if_pos h1, if_pos h1]
            · rw [if_neg h1, if_neg h1]
              by_cases h2 : (rv.typeTag == "ERROR") = true
              · rw [if_pos h2, if_pos h2]
              · rw [if_neg h2, if_neg h2]
                exact (ihP rest env rst rv hrest hrst hrv).1
        · intro v st₁ h
          cases hA : EvalA.evalStmt fuel s env st with
          | none => simp only [EvalA.evalProgramAux, hA, reduceCtorEq] at h
          | some q =>
            obtain ⟨rv, rst⟩ := q
            obtain ⟨hrv, hrst⟩ := hpS rv rst hA
            rw [progLoopStepA fuel s rest env st prev rv rst hA] at h
            by_cases h1 : (rv.typeTag == "RETURN_VALUE") = true
            · rw [if_pos h1] at h
              exact pure_pair_of_eq (Option.some.inj h) ⟨pureVal_unwrap rv hrv, hrst⟩
            · rw [if_neg h1] at h
              by_cases h2 : (rv.typeTag == "ERROR") = true
              · rw [if_pos h2] at h
                exact pure_pair_of_eq (Option.some.inj h) ⟨hrv, hrst⟩
              · rw [if_neg h2] at h
                exact (ihP rest env rst rv hrest hrst hrv).2 v st₁ h

/-- C10: for every program in the shared language fragment — no
StringLiteral, ArrayLiteral or IndexExpression node, and no reference to a
builtin name — the evaluator of `src/evaluator/evaluator.go` and the
evaluator of `src/unnamed/part_001` compute the same result, for any fuel. -/
theorem c10_evaluator_equivalence :
    ∀ fuel prog, fragStmts prog = true →
      EvalA.runProgram fuel prog = EvalB.runProgram fuel prog := by
  intro fuel prog hfrag
  unfold EvalA.runProgram EvalB.runProgram EvalA.evalProgram EvalB.evalProgram
  exact ((evalAB fuel).2.2.2.2.2.2.2 prog 0 ⟨[⟨[], none⟩], 0⟩ .goNil hfrag rfl rfl).1

/-- C10 witness: the two evaluators agree on
`let add = fn(a, b) { a + b }; add(3, add(4, 5))`. -/
theorem c10_witness :
    EvalA.runProgram 100 c10prog = EvalB.runProgram 100 c10prog :=
  c10_evaluator_equivalence 100 c10prog (by rfl)

end Monkey

